import Mathlib

/-!
# Verification of the harmonic-response data pipeline (`util.py`)

A shallow embedding of the data normalization and description-file parsing
pipeline of `util.py`:

* the Record Reader (`get_*_data`, built on `pd.read_csv` with
  `sep=r'\s+', skiprows=1, names=[...]`) together with the in-place header
  rewrite performed before reading;
* the Unit Normalizer (the `Amplitude_g` insertion for acceleration and the
  `*= 1e3` scaling for deformation);
* the Dataset Assembler (`get_deformation_data_files` / `get_deformation_data`
  and friends), modelled over an explicit directory listing since `os.listdir`
  returns names in unspecified order;
* the Summary-Block Parser (`load_dfs_from_description__acceleration` and
  `load_dfs_from_description__velocity_deformation`);
* the Modal Frequency Loader (`get_modal_frequencies`).

Modelling conventions:

* Text is `List Char`; a file is a `List Str` of its lines with the trailing
  newline removed (Python's `readlines` keeps it; none of the modelled logic
  distinguishes a line from the same line plus `'\n'`, and the rewrite steps
  that append `' [deg]\n'` are modelled as appending `' [deg]'`).
* Python numbers are exact rationals.  `float(s)` is modelled by
  `pyFloat : Str → Option PyNum` on the finite-decimal/exponent fragment that
  appears in these files (`nan` maps to the `PyNum.nan` value; infinities and
  the sign of floating zero are outside the modelled fragment).
* `'{:.nf}'.format` and `round(x, n)` use round-half-to-even on the exact
  rational, which agrees with CPython on the values used here.
* Exceptions are modelled by `Except PyErr`; distinct Python exception classes
  map to distinct `PyErr` constructors (`os.listdir` on a missing directory
  raises `FileNotFoundError`, fixed-arity `namedtuple` construction with the
  wrong argument count raises `TypeError`, `df[missing]` raises `KeyError`,
  out-of-range `lines[0]` raises `IndexError`, and so on).
* `pd.read_csv(..., sep=r'\s+', skiprows=1, names=[n1,n2,n3])` is modelled
  after pandas' documented python-engine behaviour: the first line is skipped,
  blank lines are dropped, a data line with more whitespace-separated tokens
  than names raises `ParserError`, a line with fewer tokens is padded with
  `NaN`, and tokens that do not parse as numbers are kept as strings (making
  the column `object`-typed, so that later arithmetic on it raises
  `TypeError`).  With `names` supplied, a file with no data rows yields an
  empty frame rather than `EmptyDataError`.
-/

namespace HarmonicResponse

-- Batteries marks the core rational operations irreducible, which blocks
-- `decide`-style evaluation of the executable model on concrete inputs;
-- restore the default reducibility for them.
set_option allowUnsafeReducibility true

attribute [local semireducible] Rat.mul Rat.inv Rat.add Rat.sub

set_option synthInstance.maxSize 512

set_option maxRecDepth 4000

abbrev Str := List Char

/-- Python exception classes that the embedded pipeline can raise. -/
inductive PyErr where
  | fileNotFound   -- `FileNotFoundError` from `os.listdir`
  | typeError      -- `TypeError` (namedtuple arity, arithmetic on strings)
  | parserError    -- `pandas.errors.ParserError`
  | keyError       -- `KeyError` from `df[name]`
  | indexError     -- `IndexError` from out-of-range `l[i]`
  | valueError     -- `ValueError` (bad `float(s)`, DataFrame shape mismatch)
  deriving Repr, DecidableEq

instance {ε α : Type} [DecidableEq ε] [DecidableEq α] : DecidableEq (Except ε α) := fun x y =>
  match x, y with
  | .error a, .error b =>
    if h : a = b then .isTrue (by rw [h])
    else .isFalse (by intro hc; injection hc; contradiction)
  | .ok a, .ok b =>
    if h : a = b then .isTrue (by rw [h])
    else .isFalse (by intro hc; injection hc; contradiction)
  | .error _, .ok _ => .isFalse (by intro hc; cases hc)
  | .ok _, .error _ => .isFalse (by intro hc; cases hc)

/-! ## Text primitives -/

/-- The whitespace characters recognised by Python's `str.strip()` and by the
`'\s+'` separator regex, restricted to those that can occur inside a line. -/
def isWS (c : Char) : Bool := c = ' ' || c = '\t' || c = '\r'

/-- Python `str.strip()`. -/
def pstrip (s : Str) : Str :=
  ((s.dropWhile isWS).reverse.dropWhile isWS).reverse

/-- Python `str.split(c)` for a single-character separator: splits at every
occurrence, keeping empty fields. -/
def splitCh (c : Char) : Str → List Str
  | [] => [[]]
  | x :: xs =>
    if x = c then [] :: splitCh c xs
    else
      match splitCh c xs with
      | [] => [[x]]
      | h :: t => (x :: h) :: t

/-- Whitespace-run tokenization: the fields produced by the `sep=r'\s+'`
separator (leading whitespace ignored, runs collapsed). -/
def words (s : Str) : List Str :=
  (splitCh ' ' (s.map fun c => if isWS c then ' ' else c)).filter (· ≠ [])

/-- Index of the first occurrence of `p` as a contiguous substring of `l`
(Python `l.find(p)` when it succeeds). -/
def firstOcc (p : Str) : Str → Option Nat
  | [] => if p = [] then some 0 else none
  | x :: xs =>
    if p.isPrefixOf (x :: xs) then some 0
    else (firstOcc p xs).map (· + 1)

/-- Python `p in l` for strings. -/
def containsSub (p l : Str) : Bool := (firstOcc p l).isSome

/-! ## Python floats as exact rationals -/

/-- A Python float value as far as this pipeline observes it: an exact
rational or `nan`. -/
inductive PyNum where
  | num (q : ℚ)
  | nan
  deriving Repr, DecidableEq

def digitVal (c : Char) : Option Nat :=
  if c.isDigit then some (c.toNat - '0'.toNat) else none

def digitsToNat (ds : Str) : Option Nat :=
  ds.foldlM (fun a c => (digitVal c).map fun d => a * 10 + d) 0

/-- Parse `digits [. digits]` into `(numerator, #fraction digits)`. -/
def parseMantissa (s : Str) : Option (Nat × Nat) :=
  match splitCh '.' s with
  | [i] => if i = [] then none else (digitsToNat i).map (·, 0)
  | [i, f] =>
    if i = [] && f = [] then none
    else do
      let iv ← digitsToNat i
      let fv ← digitsToNat f
      pure (iv * 10 ^ f.length + fv, f.length)
  | _ => none

def parseSign (s : Str) : Bool × Str :=
  match s with
  | [] => (false, [])
  | c :: t =>
    if c = '-' then (true, t)
    else if c = '+' then (false, t)
    else (false, c :: t)

def parseExp (s : Str) : Option ℤ :=
  let (n, t) := parseSign s
  if t = [] then none
  else (digitsToNat t).map fun v => if n then -(v : ℤ) else (v : ℤ)

/-- Python `float(s)` on the fragment used by these files: optional sign,
decimal mantissa, optional `e`/`E` exponent, or the word `nan` (any case). -/
def pyFloat (s : Str) : Option PyNum :=
  let s := pstrip s
  let (n, t) := parseSign s
  if t.map Char.toLower = "nan".toList then some .nan
  else
    let sections := splitCh 'e' (t.map Char.toLower)
    match sections with
    | [m] => do
      let (v, k) ← parseMantissa m
      let q : ℚ := (v : ℚ) / 10 ^ k
      pure (.num (if n then -q else q))
    | [m, e] => do
      let (v, k) ← parseMantissa m
      let ex ← parseExp e
      let q : ℚ := (v : ℚ) / 10 ^ k * (10 : ℚ) ^ ex
      pure (.num (if n then -q else q))
    | _ => none

/-- Round-half-to-even to an integer, as CPython's `round` and `format`. -/
def rhe (q : ℚ) : ℤ :=
  let f := ⌊q⌋
  let r := q - f
  if r < 1/2 then f
  else if 1/2 < r then f + 1
  else if f % 2 = 0 then f else f + 1

/-- Python `round(q, n)`. -/
def pyRound (n : ℕ) (q : ℚ) : ℚ := (rhe (q * 10 ^ n) : ℚ) / 10 ^ n

def padZeros (n : ℕ) (ds : Str) : Str :=
  List.replicate (n - ds.length) '0' ++ ds

def digitChar10 (d : ℕ) : Char :=
  match d with
  | 0 => '0' | 1 => '1' | 2 => '2' | 3 => '3' | 4 => '4'
  | 5 => '5' | 6 => '6' | 7 => '7' | 8 => '8' | _ => '9'

/-- The base-10 digits of `n`, least significant first; the first argument
is recursion fuel (`n` itself suffices). -/
def toDigitsRev : ℕ → ℕ → List ℕ
  | 0, _ => []
  | fuel + 1, n => if n = 0 then [] else n % 10 :: toDigitsRev fuel (n / 10)

/-- Decimal rendering of a natural number. -/
def natRepr (n : ℕ) : Str :=
  if n = 0 then ['0'] else ((toDigitsRev n n).map digitChar10).reverse

/-- Python `'{:.nf}'.format(q)` for finite `q` (round-half-even, fixed
number of fraction digits). -/
def fmtFixed (n : ℕ) (q : ℚ) : Str :=
  let m := rhe (q * 10 ^ n)
  let a := m.natAbs
  let ip := a / 10 ^ n
  let fp := a % 10 ^ n
  (if m < 0 then ['-'] else []) ++ natRepr ip ++
    (if n = 0 then [] else '.' :: padZeros n (natRepr fp))

/-- `'{:.nf}'.format` on a possibly-`nan` value (`format(float('nan'))` gives
the string `"nan"`). -/
def fmtFixedP (n : ℕ) : PyNum → Str
  | .num q => fmtFixed n q
  | .nan => "nan".toList

/-- `round(x, n)` on a possibly-`nan` value. -/
def pyRoundP (n : ℕ) : PyNum → PyNum
  | .num q => .num (pyRound n q)
  | .nan => .nan

/-- `x < 0` on a possibly-`nan` value (`nan < 0` is `False`). -/
def pyNeg : PyNum → Bool
  | .num q => q < 0
  | .nan => false

/-! ## The Record Reader: `pd.read_csv(sep=r'\s+', skiprows=1, names=[...])` -/

/-- A cell value as pandas stores it after reading: a number, `NaN`, or (in an
`object`-typed column) the unconverted token. -/
inductive PVal where
  | num (q : ℚ)
  | nan
  | str (s : Str)
  deriving Repr, DecidableEq

/-- pandas' per-token conversion: numeric tokens become numbers, a
`nan`-spelled token (the NA marker this development exercises) becomes
`NaN`, anything else stays a string. -/
def tokVal (t : Str) : PVal :=
  match pyFloat t with
  | some (.num q) => .num q
  | some .nan => .nan
  | none => .str t

abbrev Row3 := PVal × PVal × PVal
abbrev Row4 := PVal × PVal × PVal × PVal

/-- Field `i` of a tokenized row, `NaN` past the end of the row. -/
def fieldAt (ws : List Str) (i : ℕ) : PVal :=
  match ws.get? i with
  | some t => tokVal t
  | none => .nan

/-- `pd.read_csv(f, sep=r'\s+', skiprows=1, names=[n1, n2, n3])` on the lines
of `f`: skip the first line, drop blank lines, tokenize on whitespace runs.
The C tokenizer takes its expected field count `W` from the first non-blank
data row: a later row with more than `W` fields raises `ParserError`, and
narrower rows are `NaN`-padded on the right.  When `W` exceeds the 3
supplied names, pandas' implicit-index behaviour applies: the leading
`W - 3` fields of every row become row labels and the named columns read
the trailing 3 positions; when `W` is smaller, the missing named columns
are all-`NaN`. -/
def readCsv3 (content : List Str) : Except PyErr (List Row3) :=
  match (content.drop 1).filter (fun l => words l ≠ []) with
  | [] => .ok []
  | r0 :: rest =>
    (r0 :: rest).mapM fun l =>
      if (words r0).length < (words l).length then .error .parserError
      else .ok (fieldAt (words l) ((words r0).length - 3),
        fieldAt (words l) ((words r0).length - 3 + 1),
        fieldAt (words l) ((words r0).length - 3 + 2))

/-! ## The in-place header rewrites performed before reading -/

def angleTok : Str := "Angle".toList

def degSuffix : Str := " [deg]".toList

/-- The per-line rewrite in `get_deformation_data`: a line containing
`'Angle'` is cut just after the first occurrence and `' [deg]'` appended. -/
def rewriteDefLine (l : Str) : Str :=
  match firstOcc angleTok l with
  | none => l
  | some i => l.take (i + 5) ++ degSuffix

def rewriteDefLines (ls : List Str) : List Str := ls.map rewriteDefLine

def accHeader : Str := "\tFrequency [Hz]\tAmplitude [m/s2]\tPhase Angle [deg]".toList

def velHeader : Str := "\tFrequency [Hz]\tAmplitude [m/s]\tPhase Angle [deg]".toList

/-- The rewrite in `get_acceleration_data` / `get_velocity_data`: every line
equal (as content) to the first line is replaced by the fixed header. -/
def rewriteFirstLines (hdr : Str) (ls : List Str) : List Str :=
  match ls with
  | [] => []
  | h :: _ => ls.map fun l => if l = h then hdr else l

/-! ## The Unit Normalizer -/

/-- A pandas Series binary op against a scalar: numbers compute, `NaN`
propagates, a leftover string raises `TypeError`. -/
def pvalMul (k : ℚ) : PVal → Except PyErr PVal
  | .num q => .ok (.num (q * k))
  | .nan => .ok .nan
  | .str _ => .error .typeError

def pvalDiv (k : ℚ) : PVal → Except PyErr PVal
  | .num q => .ok (.num (q / k))
  | .nan => .ok .nan
  | .str _ => .error .typeError

/-- `get_deformation_data`'s per-file work: rewrite the header lines, read
three columns, then `df['Amplitude'] *= 1e3`. -/
def processDeformationFile (content : List Str) : Except PyErr (List Row3) := do
  let rows ← readCsv3 (rewriteDefLines content)
  rows.mapM fun r => do pure (r.1, ← pvalMul 1000 r.2.1, r.2.2)

/-- `get_acceleration_data`'s per-file work: rewrite the first line to the
fixed header, read three columns, then
`df.insert(1, 'Amplitude_g', df['Amplitude'] / 9.81)`, giving column order
`[Frequency, Amplitude_g, Amplitude, Phase Angle]`. -/
def processAccelerationFile (content : List Str) : Except PyErr (List Row4) := do
  let rows ← readCsv3 (rewriteFirstLines accHeader content)
  rows.mapM fun r => do pure (r.1, ← pvalDiv (981/100) r.2.1, r.2.1, r.2.2)

/-- `get_velocity_data`'s per-file work: rewrite the first line, read three
columns; no unit transform. -/
def processVelocityFile (content : List Str) : Except PyErr (List Row3) :=
  readCsv3 (rewriteFirstLines velHeader content)

/-! ## The Dataset Assembler -/

/-- One `data/<quantity>/` directory: `listing` is what `os.listdir` returns
(in unspecified order; `none` when the directory is absent, in which case
`os.listdir` raises `FileNotFoundError`), and `read` gives a file's lines. -/
structure DataDir where
  listing : Option (List Str)
  read : Str → List Str

def txtPat : Str := ".txt".toList

/-- One pass of the `get_*_data_files` loop: keep `re.search('.*\.txt', f)`
matches and partition by the `'x.txt' in f` / `elif 'y.txt' in f` /
`elif 'z.txt' in f` chain, preserving listing order. -/
def axisSplit (ls : List Str) : List Str × List Str × List Str :=
  let m := ls.filter (containsSub txtPat)
  ( m.filter (fun f => containsSub "x.txt".toList f),
    m.filter (fun f => ¬ containsSub "x.txt".toList f ∧ containsSub "y.txt".toList f),
    m.filter (fun f => ¬ containsSub "x.txt".toList f ∧ ¬ containsSub "y.txt".toList f ∧
      containsSub "z.txt".toList f) )

/-- Fixed-arity namedtuple construction (`namedtuple(..., [8 fields])(*l)`)
raises `TypeError` unless exactly 8 values are passed. -/
def namedtuple8 {α : Type} (l : List α) : Except PyErr (List α) :=
  if l.length = 8 then .ok l else .error .typeError

/-- The shared shape of `get_deformation_data` / `get_acceleration_data` /
`get_velocity_data`: list the directory, split by axis, process each file in
listing order, then pack each axis into an 8-slot namedtuple. -/
def assemble {β : Type} (process : List Str → Except PyErr β) (d : DataDir) :
    Except PyErr (List β × List β × List β) := do
  match d.listing with
  | none => .error .fileNotFound
  | some ls =>
    let (xs, ys, zs) := axisSplit ls
    let dx ← xs.mapM fun f => process (d.read f)
    let dy ← ys.mapM fun f => process (d.read f)
    let dz ← zs.mapM fun f => process (d.read f)
    let tx ← namedtuple8 dx
    let ty ← namedtuple8 dy
    let tz ← namedtuple8 dz
    pure (tx, ty, tz)

def get_deformation_data : DataDir → Except PyErr (List (List Row3) × List (List Row3) × List (List Row3)) :=
  assemble processDeformationFile

def get_acceleration_data : DataDir → Except PyErr (List (List Row4) × List (List Row4) × List (List Row4)) :=
  assemble processAccelerationFile

def get_velocity_data : DataDir → Except PyErr (List (List Row3) × List (List Row3) × List (List Row3)) :=
  assemble processVelocityFile

/-! ## The Modal Frequency Loader (`get_modal_frequencies`) -/

def freqName : Str := "Frequency".toList

/-- `get_modal_frequencies` on the lines of `modes.txt`: strip each line,
split the header and the rows on tabs, build
`pd.DataFrame(rows, columns=col_names)` (rows are padded with `NaN` to the
longest row, whose length must match the column count), then
`[float(m) for m in df['Frequency'].tolist()]`. -/
def get_modal_frequencies (content : List Str) : Except PyErr (List PyNum) := do
  let lines := content.map pstrip
  match lines with
  | [] => .error .indexError
  | hd :: tl =>
    let colNames := splitCh '\t' hd
    let rows := tl.map (splitCh '\t')
    let width := (rows.map List.length).foldr max 0
    if rows ≠ [] ∧ width ≠ colNames.length then .error .valueError
    else if colNames.count freqName = 0 then .error .keyError
    else if colNames.count freqName ≠ 1 then .error .typeError
    else
      let k := colNames.indexOf freqName
      rows.mapM fun r =>
        match r.get? k with
        | none => .ok .nan
        | some s =>
          match pyFloat s with
          | some v => .ok v
          | none => .error .valueError

/-! ## The Summary-Block Parser

`load_dfs_from_description__acceleration` and
`load_dfs_from_description__velocity_deformation` in `util.py`. -/

/-- A DataFrame cell after construction from a list of lists: `none` is a
`NaN` introduced by row padding. -/
abbrev Cell := Option Str

/-- A pandas DataFrame as this pipeline observes it: column labels plus rows
of cells. -/
structure Table where
  cols : List Str
  rows : List (List Cell)
  deriving Repr, DecidableEq

/-- The literal three-character string `\s+` that
`line.split(r'\s+')` splits on (a raw string, not a regex, is passed to
`str.split`). -/
def sPat : Str := ['\\', 's', '+']

/-- `line.split(r'\s+')[0]`: everything before the first occurrence of the
literal substring `\s+` (the whole line when absent, as in every real input).
-/
def takeBeforeSPat (l : Str) : Str :=
  match firstOcc sPat l with
  | none => l
  | some i => l.take i

/-- The inner helper `d`: `lines[0] = '\t' + lines[0]` then
`lines[:1] + lines[2:]` (drop the separator line under the header);
`lines[0]` on an empty block raises `IndexError`. -/
def dStep (b : List Str) : Except PyErr (List Str) :=
  match b with
  | [] => .error .indexError
  | h :: t => .ok (('\t' :: h) :: t.drop 1)

/-- `l[-1] = l[-1] + suf` (`IndexError` on an empty list). -/
def setLastAppend (suf : Str) : List Str → Option (List Str)
  | [] => none
  | [x] => some [x ++ suf]
  | x :: y :: xs => (setLastAppend suf (y :: xs)).map (x :: ·)

def angleSuffix : Str := "_Angle".toList

/-- The header-to-column-names pipeline of `to_df` applied to the (already
`'\t'`-prefixed, `\s+`-truncated) first row:
`columns = rows[0].split('\t')`; `[c.split(' ') for c in columns[1:]][0]`
(an `IndexError` when `columns[1:]` is empty); drop the last token; append
`"_Angle"` to the new last token (`IndexError` when none remains); keep only
tokens longer than one character. -/
def headerCols (r0 : Str) : Except PyErr (List Str) :=
  match (splitCh '\t' r0).drop 1 with
  | [] => .error .indexError
  | c :: _ =>
    match setLastAppend angleSuffix ((splitCh ' ' c).dropLast) with
    | none => .error .indexError
    | some cols => .ok (cols.filter (fun s => 1 < s.length))

/-- The data-row pipeline of `to_df`: `r.split(' ')`, drop the leading
statistic label (`r[1:]`), keep only tokens longer than one character. -/
def rowVals (l : Str) : List Str :=
  ((splitCh ' ' l).drop 1).filter (fun s => 1 < s.length)

/-- `pd.DataFrame(rows, columns=cols)` from a list of lists of cells: rows
are padded with `NaN` to the length of the longest row, and that length must
equal the number of columns (else `ValueError`). -/
def mkDfC (cols : List Str) (rows : List (List Cell)) : Except PyErr Table :=
  let width := (rows.map List.length).foldr max 0
  if rows ≠ [] ∧ width ≠ cols.length then .error .valueError
  else .ok ⟨cols, rows.map fun r => (List.range width).map fun i => ((r.get? i).map id).join⟩

/-- `pd.DataFrame(rows, columns=cols)` from rows of strings. -/
def mkDf (cols : List Str) (rows : List (List Str)) : Except PyErr Table :=
  mkDfC cols (rows.map (·.map some))

/-- `r[k]` followed by writing back a transformed value (`r[k] = f(r[k])`). -/
def mapRowAt (k : ℕ) (f : Cell → Except PyErr Cell) (r : List Cell) :
    Except PyErr (List Cell) :=
  match r.get? k with
  | none => .error .indexError
  | some c => do pure (r.set k (← f c))

/-- `df[name] = df[name].map(f)`-style column update: `KeyError` when the
label is absent; a duplicated label makes `df[name]` a DataFrame, on which
the subsequent `.astype`/`.map` calls fail (modelled as `TypeError`). -/
def mapCol (name : Str) (f : Cell → Except PyErr Cell) (t : Table) :
    Except PyErr Table :=
  if t.cols.count name = 0 then .error .keyError
  else if 1 < t.cols.count name then .error .typeError
  else do
    let rows ← t.rows.mapM (mapRowAt (t.cols.indexOf name) f)
    pure ⟨t.cols, rows⟩

/-- `.astype(float)` on one cell: `NaN` stays `NaN`, a string must parse as a
Python float (else `ValueError`). -/
def cellFloat : Cell → Except PyErr PyNum
  | none => .ok .nan
  | some s =>
    match pyFloat s with
    | some v => .ok v
    | none => .error .valueError

/-- `df[c].astype(float).map(lambda x: '{:.df}'.format(...))` on one cell,
with an optional preceding `round(x, m)`. -/
def cellFmt (ndig : ℕ) (rnd : Option ℕ) (c : Cell) : Except PyErr Cell := do
  let v ← cellFloat c
  let v := match rnd with
    | some m => pyRoundP m v
    | none => v
  pure (some (fmtFixedP ndig v))

/-- `df[c].map(lambda x: x[:n])` on one (string) cell. -/
def cellTrunc (n : ℕ) : Cell → Except PyErr Cell
  | none => .error .typeError
  | some s => .ok (some (s.take n))

/-- `df[c].map(lambda x: x[:6] if float(x) < 0 else x[:5])` on one cell. -/
def cellPhaseTrunc : Cell → Except PyErr Cell
  | none => .error .typeError
  | some s => do
    let v ← cellFloat (some s)
    pure (some (if pyNeg v then s.take 6 else s.take 5))

def freqCol : Str := "Frequency".toList
def ampCol : Str := "Amplitude".toList
def ampGCol : Str := "Amplitude_g".toList
def phaseCol : Str := "Phase_Angle".toList

/-- The `to_df` of `load_dfs_from_description__velocity_deformation`:
tokenize, build the frame, then format and truncate the `Frequency`
(`'{:.4f}'`, width 5), `Amplitude` (`round(x, 6)`, `'{:.6f}'`, width 8) and
`Phase_Angle` (`round(x, 3)`, `'{:.4f}'`, width 6 when negative else 5)
columns. -/
def to_df_velocity_deformation (b : List Str) : Except PyErr Table := do
  let rows := b.map takeBeforeSPat
  match rows with
  | [] => .error .indexError
  | r0 :: rest =>
    let cols ← headerCols r0
    let df ← mkDf cols (rest.map rowVals)
    let t1 ← mapCol freqCol (cellFmt 4 none) df
    let t2 ← mapCol freqCol (cellTrunc 5) t1
    let t3 ← mapCol ampCol (cellFmt 6 (some 6)) t2
    let t4 ← mapCol ampCol (cellTrunc 8) t3
    let t5 ← mapCol phaseCol (cellFmt 4 (some 3)) t4
    mapCol phaseCol cellPhaseTrunc t5

/-- `columns[1], columns[2] = columns[2], columns[1]` (and the same on each
row): swaps positions 1 and 2, `IndexError` when fewer than 3 entries. -/
def swap12 {α : Type} : List α → Except PyErr (List α)
  | a :: b :: c :: t => .ok (a :: c :: b :: t)
  | _ => .error .indexError

/-- The `to_df` of `load_dfs_from_description__acceleration`: as the
velocity/deformation variant, but the two middle columns (labels and row
values) are swapped before formatting, and the frame is rebuilt
(`df2 = pd.DataFrame(rows, columns=columns)`); `Amplitude` and `Amplitude_g`
use `round(x, 4)`, `'{:.4f}'`, width 6. -/
def to_df_acceleration (b : List Str) : Except PyErr Table := do
  let rows := b.map takeBeforeSPat
  match rows with
  | [] => .error .indexError
  | r0 :: rest =>
    let cols ← headerCols r0
    let df ← mkDf cols (rest.map rowVals)
    let cols2 ← swap12 df.cols
    let rows2 ← df.rows.mapM swap12
    let df2 ← mkDfC cols2 rows2
    let t1 ← mapCol freqCol (cellFmt 4 none) df2
    let t2 ← mapCol freqCol (cellTrunc 5) t1
    let t3 ← mapCol ampCol (cellFmt 4 (some 4)) t2
    let t4 ← mapCol ampCol (cellTrunc 6) t3
    let t5 ← mapCol ampGCol (cellFmt 4 (some 4)) t4
    let t6 ← mapCol ampGCol (cellTrunc 6) t5
    let t7 ← mapCol phaseCol (cellFmt 4 (some 3)) t6
    mapCol phaseCol cellPhaseTrunc t7

/-- The eight fixed block offsets `lines[:9], lines[14:23], ..,
lines[98:107]` (start offsets; every block is 9 lines wide). -/
def blockStarts : List ℕ := [0, 14, 28, 42, 56, 70, 84, 98]

def sliceAt (body : List Str) (k : ℕ) : List Str := (body.drop k).take 9

/-- Shared shape of both description loaders: strip every line, drop the
6-line preamble, slice the eight blocks, run `d` on each, then `to_df` on
each. -/
def loadDescription (blockToDf : List Str → Except PyErr Table)
    (content : List Str) : Except PyErr (List Table) := do
  let body := (content.map pstrip).drop 6
  let dblocks ← blockStarts.mapM fun k => dStep (sliceAt body k)
  dblocks.mapM blockToDf

def load_dfs_from_description__velocity_deformation :
    List Str → Except PyErr (List Table) :=
  loadDescription to_df_velocity_deformation

def load_dfs_from_description__acceleration :
    List Str → Except PyErr (List Table) :=
  loadDescription to_df_acceleration

/-! ## Structural well-formedness of a description-report block

The shape a 9-line block slice must have for the claims about well-formed
reports: a header whose processed column names are exactly the schema, a
(dropped) second line, and seven statistic rows whose value tokens all parse
as floats. -/

def parsesFloat (s : Str) : Bool := (pyFloat s).isSome

/-- A well-formed statistic row contributing `n` values. -/
def wfRow (n : ℕ) (l : Str) : Bool :=
  (rowVals (takeBeforeSPat l)).length = n &&
  (rowVals (takeBeforeSPat l)).all parsesFloat

def vdSchema : List Str := [freqCol, ampCol, phaseCol]

def accSchema : List Str := [freqCol, ampGCol, ampCol, phaseCol]

/-- A well-formed velocity/deformation block slice: 9 lines, a header that
processes to `[Frequency, Amplitude, Phase_Angle]`, and 7 three-value rows. -/
def wfBlockVD (b : List Str) : Bool :=
  b.length = 9 &&
  (match b with
   | h :: _ =>
     match headerCols (takeBeforeSPat ('\t' :: h)) with
     | .ok cs => cs = vdSchema
     | .error _ => false
   | [] => false) &&
  (b.drop 2).all (wfRow 3)

/-- A well-formed acceleration block slice: 9 lines, a header that processes
to `[Frequency, Amplitude_g, Amplitude, Phase_Angle]` (the raw report order,
before the middle-column swap), and 7 four-value rows. -/
def wfBlockAcc (b : List Str) : Bool :=
  b.length = 9 &&
  (match b with
   | h :: _ =>
     match headerCols (takeBeforeSPat ('\t' :: h)) with
     | .ok cs => cs = accSchema
     | .error _ => false
   | [] => false) &&
  (b.drop 2).all (wfRow 4)

/-! ## Concrete example inputs used by witnesses and counterexamples -/

/-- The ascending well-named per-axis file list `DIMM1<ax>.txt` ..
`DIMM8<ax>.txt`. -/
def dimmNames (ax : Str) : List Str :=
  (List.range 8).map fun i => "DIMM".toList ++ (Nat.repr (i + 1)).toList ++ ax ++ txtPat

/-- A tiny raw data file whose single data row starts with the sensor
number. -/
def exFile (k : ℕ) : List Str :=
  ["hdr".toList, (Nat.repr k).toList ++ " 2.0 3.0".toList]

/-- Contents for the example directories: `DIMM<k>z.txt` holds `exFile k`,
anything else holds `exFile 9`. -/
def exRead (f : Str) : List Str :=
  match (List.range 8).find? (fun i => f = "DIMM".toList ++ (Nat.repr (i + 1)).toList ++ "z.txt".toList) with
  | some i => exFile (i + 1)
  | none => exFile 9

/-- A listing that enumerates the 8 well-named files per axis in ascending
filename order. -/
def exListingSorted : List Str :=
  dimmNames "x".toList ++ dimmNames "y".toList ++ dimmNames "z".toList

/-- The same folder's files, but with the `z`-axis enumeration listing
`DIMM2z.txt` before `DIMM1z.txt` (a legal `os.listdir` order). -/
def exListingUnsorted : List Str :=
  dimmNames "x".toList ++ dimmNames "y".toList ++
    (["DIMM2z.txt".toList, "DIMM1z.txt".toList] ++
      (List.range 6).map fun i => "DIMM".toList ++ (Nat.repr (i + 3)).toList ++ "z.txt".toList)

def exDirSorted : DataDir := ⟨some exListingSorted, exRead⟩

def exDirUnsorted : DataDir := ⟨some exListingUnsorted, exRead⟩

/-- The same folder with only 7 `z`-axis files. -/
def exDir7 : DataDir :=
  ⟨some (dimmNames "x".toList ++ dimmNames "y".toList ++ (dimmNames "z".toList).take 7), exRead⟩

/-- The per-file result table of the example directories. -/
def exG (f : Str) : List Row3 :=
  match processDeformationFile (exRead f) with
  | .ok v => v
  | .error _ => []

/-- A well-formed velocity/deformation description block (header, count row,
seven statistic rows), as `df.describe()` lays it out. -/
def exBlockVD : List String :=
  ["       Frequency  Amplitude  Phase Angle",
   "count  7.000000  7.000000    7.000000"] ++
  List.replicate 7 "mean   12.34567   0.123456   -12.3456"

/-- A well-formed acceleration description block. -/
def exBlockAcc : List String :=
  ["       Frequency  Amplitude_g  Amplitude  Phase Angle",
   "count  7.000000  7.000000    7.000000   7.000000"] ++
  List.replicate 7 "mean   12.34567   0.123456   1.2345   -12.3456"

/-- The five filler lines between consecutive 9-line blocks (stride 14). -/
def exFiller : List String := ["", "", "DIMM", "-----", ""]

def exPreamble : List String :=
  ["Velocity (X) Description", "------------", "", "", "DIMM1", "-----"]

/-- A 113-line well-formed velocity/deformation description report. -/
def exReportVD : List Str :=
  (exPreamble ++ (List.flatten (List.replicate 8 (exBlockVD ++ exFiller))).take 107).map
    String.toList

/-- A 113-line well-formed acceleration description report. -/
def exReportAcc : List Str :=
  (exPreamble ++ (List.flatten (List.replicate 8 (exBlockAcc ++ exFiller))).take 107).map
    String.toList

/-- A 112-line report: the final statistic row of the 8th block is missing,
so the report is one line short of `6 + 8*14 - 5`. -/
def exReport112 : List Str :=
  (exPreamble ++ ((List.flatten (List.replicate 8 (exBlockVD ++ exFiller))).take 107).take 106).map
    String.toList

/-- A 104-line report: too short for the 8th block slice to be nonempty. -/
def exReport104 : List Str :=
  (exPreamble ++ ((List.flatten (List.replicate 8 (exBlockVD ++ exFiller))).take 107).take 98).map
    String.toList

/-- The processed header of a block's first line fails to yield a
`Frequency` column label: either the header pipeline itself raises or the
resulting column labels do not contain `Frequency`. -/
def lacksFreq (l : Str) : Bool :=
  match headerCols (takeBeforeSPat l) with
  | .ok cols => !(decide (freqCol ∈ cols))
  | .error _ => true

/-- An (already tab-prefixed) block header line without a `Frequency`
marker. -/
def exBadHeader : Str := '\t' :: "Foo bar baz".toList

def accSchemaOut : List Str := [freqCol, ampCol, ampGCol, phaseCol]

/-- A `modes.txt` with a `Frequency` column: the example from the spec. -/
def exModes : List Str :=
  ["Frequency\tAmplitude", "10.5\t7.7", "22.3\t8.8"].map String.toList

/-- A `modes.txt` whose header lacks a `Frequency` column. -/
def exModesNoFreq : List Str :=
  ["Freq\tAmplitude", "10.5\t7.7"].map String.toList

/-! ## Generic lemmas about `Except` and `List.mapM` -/

theorem except_bind_ok {ε α β : Type} {x : Except ε α} {g : α → Except ε β} {c : β} :
    x >>= g = .ok c ↔ ∃ b, x = .ok b ∧ g b = .ok c := by
  cases x <;> simp [Bind.bind, Except.bind]

theorem mapM_ok_forall₂ {ε α β : Type} {f : α → Except ε β} :
    ∀ {l : List α} {ys : List β},
      l.mapM f = .ok ys ↔ List.Forall₂ (fun a b => f a = .ok b) l ys := by
  intro l
  induction l with
  | nil =>
    intro ys
    constructor
    · intro h
      simp only [List.mapM_nil] at h
      cases h
      exact List.Forall₂.nil
    · intro h
      cases h
      simp [List.mapM_nil]
      rfl
  | cons a l ih =>
    intro ys
    rw [List.mapM_cons]
    constructor
    · intro h
      simp only [bind_pure_comp] at h
      rw [except_bind_ok] at h
      obtain ⟨b, hb, h⟩ := h
      rcases hmap : l.mapM f with e | bs
      · rw [hmap] at h
        simp [Functor.map, Except.map] at h
      · rw [hmap] at h
        simp only [Functor.map, Except.map, Except.ok.injEq] at h
        subst h
        exact List.Forall₂.cons hb (ih.mp hmap)
    · intro h
      cases h with
      | cons hab htail =>
        rw [hab]
        have := ih.mpr htail
        rw [this]
        rfl

theorem mapM_ok_length {ε α β : Type} {f : α → Except ε β} {l : List α} {ys : List β}
    (h : l.mapM f = .ok ys) : ys.length = l.length :=
  (mapM_ok_forall₂.mp h).length_eq.symm

theorem mapM_ok_of_forall {ε α β : Type} {f : α → Except ε β} {Q : α → β → Prop} :
    ∀ {l : List α}, (∀ a ∈ l, ∃ b, f a = .ok b ∧ Q a b) →
      ∃ ys, l.mapM f = .ok ys ∧ List.Forall₂ Q l ys := by
  intro l
  induction l with
  | nil => exact fun _ => ⟨[], by simp [List.mapM_nil]; rfl, List.Forall₂.nil⟩
  | cons a l ih =>
    intro h
    obtain ⟨b, hb, hq⟩ := h a (List.mem_cons_self a l)
    obtain ⟨ys, hys, hfa⟩ := ih fun x hx => h x (List.mem_cons_of_mem a hx)
    refine ⟨b :: ys, ?_, List.Forall₂.cons hq hfa⟩
    exact mapM_ok_forall₂.mpr (List.Forall₂.cons hb (mapM_ok_forall₂.mp hys))

theorem mapM_eq_map {ε α β : Type} {f : α → Except ε β} {l : List α} (g : α → β)
    (h : ∀ a ∈ l, f a = .ok (g a)) : l.mapM f = .ok (l.map g) := by
  refine mapM_ok_forall₂.mpr ?_
  rw [List.forall₂_map_right_iff]
  exact (List.forall₂_same).mpr h

theorem mapM_error_of {ε α β : Type} {f : α → Except ε β} {e : ε} :
    ∀ {l : List α}, (∀ a ∈ l, (∃ b, f a = .ok b) ∨ f a = .error e) →
      (∃ a ∈ l, f a = .error e) → l.mapM f = .error e := by
  intro l
  induction l with
  | nil => rintro _ ⟨a, ha, _⟩; cases ha
  | cons a l ih =>
    rintro hall ⟨x, hx, hxe⟩
    rw [List.mapM_cons]
    rcases hall a (List.mem_cons_self a l) with ⟨b, hb⟩ | hb
    · rw [hb]
      have hxl : x ∈ l := by
        rcases List.mem_cons.mp hx with rfl | h
        · rw [hb] at hxe; cases hxe
        · exact h
      have : l.mapM f = .error e :=
        ih (fun y hy => hall y (List.mem_cons_of_mem a hy)) ⟨x, hxl, hxe⟩
      simp only [bind_pure_comp, this]
      rfl
    · rw [hb]; rfl

theorem forall₂_mem_right {α β : Type} {R : α → β → Prop} :
    ∀ {l : List α} {ys : List β}, List.Forall₂ R l ys →
      ∀ b ∈ ys, ∃ a ∈ l, R a b := by
  intro l ys h
  induction h with
  | nil => intro b hb; cases hb
  | @cons a b l' ys' hab _ ih =>
    intro x hx
    rcases List.mem_cons.mp hx with rfl | hx
    · exact ⟨a, List.mem_cons_self a l', hab⟩
    · obtain ⟨a', ha', hr⟩ := ih x hx
      exact ⟨a', List.mem_cons_of_mem a ha', hr⟩

theorem mapM_ok_mem {ε α β : Type} {f : α → Except ε β} {l : List α} {ys : List β}
    {Q : β → Prop} (h : l.mapM f = .ok ys)
    (hq : ∀ a ∈ l, ∀ b, f a = .ok b → Q b) : ∀ b ∈ ys, Q b := by
  intro b hb
  obtain ⟨a, ha, hab⟩ := forall₂_mem_right (mapM_ok_forall₂.mp h) b hb
  exact hq a ha b hab

/-! ## Idempotence of the in-place header rewrites (claim C8) -/

theorem firstOcc_isPrefixOf {p : Str} :
    ∀ {l : Str} {i : ℕ}, firstOcc p l = some i → p.isPrefixOf (l.drop i) = true := by
  intro l
  induction l with
  | nil =>
    intro i h
    unfold firstOcc at h
    split at h
    · cases h
      simp_all
    · cases h
  | cons x xs ih =>
    intro i h
    unfold firstOcc at h
    split at h
    · cases h
      simpa using ‹p.isPrefixOf (x :: xs) = true›
    · obtain ⟨j, hj, rfl⟩ := Option.map_eq_some'.mp h
      exact ih hj

theorem firstOcc_min {p : Str} :
    ∀ {l : Str} {i : ℕ}, firstOcc p l = some i →
      ∀ j < i, p.isPrefixOf (l.drop j) = false := by
  intro l
  induction l with
  | nil =>
    intro i h j hj
    unfold firstOcc at h
    split at h
    · cases h; omega
    · cases h
  | cons x xs ih =>
    intro i h j hj
    unfold firstOcc at h
    split at h
    · cases h; omega
    · obtain ⟨j', hj', rfl⟩ := Option.map_eq_some'.mp h
      match j with
      | 0 => simpa using Bool.not_eq_true _ |>.mp ‹¬p.isPrefixOf (x :: xs) = true›
      | k + 1 => exact ih hj' k (by omega)

theorem firstOcc_eq_some {p : Str} :
    ∀ {l : Str} {i : ℕ}, p.isPrefixOf (l.drop i) = true →
      (∀ j < i, p.isPrefixOf (l.drop j) = false) → firstOcc p l = some i := by
  intro l
  induction l with
  | nil =>
    intro i h1 h2
    rw [List.drop_nil] at h1
    have hp : p = [] := List.prefix_nil.mp (List.isPrefixOf_iff_prefix.mp h1)
    have hi : i = 0 := by
      by_contra hne
      have h0 := h2 0 (Nat.pos_of_ne_zero hne)
      rw [List.drop_nil, hp] at h0
      simp [List.isPrefixOf] at h0
    subst hp hi
    rfl
  | cons x xs ih =>
    intro i h1 h2
    match i with
    | 0 =>
      unfold firstOcc
      rw [List.drop_zero] at h1
      simp [h1]
    | k + 1 =>
      have h0 : p.isPrefixOf (x :: xs) = false := by
        simpa using h2 0 (Nat.succ_pos k)
      unfold firstOcc
      rw [h0]
      simp only [Bool.false_eq_true, if_false]
      have : firstOcc p xs = some k :=
        ih (by simpa using h1) fun j hj => by simpa using h2 (j + 1) (by omega)
      rw [this]
      rfl

theorem firstOcc_le_length {p : Str} :
    ∀ {l : Str} {i : ℕ}, firstOcc p l = some i → i ≤ l.length := by
  intro l
  induction l with
  | nil =>
    intro i h
    unfold firstOcc at h
    split at h
    · cases h; simp
    · cases h
  | cons x xs ih =>
    intro i h
    unfold firstOcc at h
    split at h
    · cases h; simp
    · obtain ⟨j, hj, rfl⟩ := Option.map_eq_some'.mp h
      have := ih hj
      simp
      omega

theorem firstOcc_length {p : Str} {l : Str} {i : ℕ} (h : firstOcc p l = some i) :
    i + p.length ≤ l.length := by
  have h1 := List.isPrefixOf_iff_prefix.mp (firstOcc_isPrefixOf h)
  have h2 := h1.length_le
  rw [List.length_drop] at h2
  have h3 := firstOcc_le_length h
  omega

/-- After the deformation rewrite, `'Angle'` still first occurs at the same
index. -/
theorem firstOcc_rewrite {l : Str} {i : ℕ} (h : firstOcc angleTok l = some i) :
    firstOcc angleTok (l.take (i + 5) ++ degSuffix) = some i := by
  have hlen5 : angleTok.length = 5 := rfl
  have hlen : i + 5 ≤ l.length := by have := firstOcc_length h; omega
  have hpre := List.isPrefixOf_iff_prefix.mp (firstOcc_isPrefixOf h)
  have htake5 : (l.drop i).take 5 = angleTok := by
    have := List.prefix_iff_eq_take.mp hpre
    rw [hlen5] at this
    exact this.symm
  apply firstOcc_eq_some
  · rw [List.drop_append_of_le_length (by simp; omega), List.drop_take]
    have : i + 5 - i = 5 := by omega
    rw [this, htake5]
    exact List.isPrefixOf_iff_prefix.mpr (List.prefix_append _ _)
  · intro j hj
    by_contra hcon
    have hcon' := List.isPrefixOf_iff_prefix.mp (Bool.not_eq_false _ |>.mp hcon)
    rw [List.drop_append_of_le_length (by simp; omega), List.drop_take] at hcon'
    have h5le : 5 ≤ i + 5 - j := by omega
    have hAlen : ((l.drop j).take (i + 5 - j)).length = i + 5 - j := by
      rw [List.length_take, List.length_drop]
      omega
    -- a prefix of `A ++ degSuffix` no longer than `A` is a prefix of `A`
    have hA : angleTok <+: (l.drop j).take (i + 5 - j) := by
      have := List.prefix_iff_eq_take.mp hcon'
      rw [hlen5] at this
      rw [List.take_append_of_le_length (by omega)] at this
      rw [this]
      exact List.take_prefix _ _
    have hdj : angleTok.isPrefixOf (l.drop j) = true :=
      List.isPrefixOf_iff_prefix.mpr (hA.trans (List.take_prefix _ _))
    rw [firstOcc_min h j hj] at hdj
    cases hdj

theorem rewriteDefLine_idem (l : Str) :
    rewriteDefLine (rewriteDefLine l) = rewriteDefLine l := by
  rcases h : firstOcc angleTok l with _ | i
  · have h1 : rewriteDefLine l = l := by unfold rewriteDefLine; rw [h]
    rw [h1, h1]
  · have hlen : i + 5 ≤ l.length := by
      have := firstOcc_length h
      simp only [show angleTok.length = 5 from rfl] at this
      omega
    have h1 : rewriteDefLine l = l.take (i + 5) ++ degSuffix := by
      unfold rewriteDefLine; rw [h]
    have h2 : rewriteDefLine (l.take (i + 5) ++ degSuffix) =
        (l.take (i + 5) ++ degSuffix).take (i + 5) ++ degSuffix := by
      unfold rewriteDefLine; rw [firstOcc_rewrite h]
    have htake : (l.take (i + 5) ++ degSuffix).take (i + 5) = l.take (i + 5) := by
      rw [List.take_append_of_le_length (by simp; omega), List.take_take]
      simp
    rw [h1, h2, htake]

theorem rewriteFirstLines_idem (hdr : Str) (ls : List Str) :
    rewriteFirstLines hdr (rewriteFirstLines hdr ls) = rewriteFirstLines hdr ls := by
  cases ls with
  | nil => rfl
  | cons h t =>
    have hid : ∀ x : Str, (if x = hdr then hdr else x) = x := by
      intro x
      by_cases hx : x = hdr <;> simp [hx]
    have h1 : rewriteFirstLines hdr (h :: t) =
        hdr :: t.map (fun l => if l = h then hdr else l) := by
      unfold rewriteFirstLines
      simp
    rw [h1]
    have h2 : rewriteFirstLines hdr (hdr :: t.map (fun l => if l = h then hdr else l)) =
        (hdr :: t.map (fun l => if l = h then hdr else l)).map
          (fun l => if l = hdr then hdr else l) := by
      unfold rewriteFirstLines
      rfl
    rw [h2, show (fun l : Str => if l = hdr then hdr else l) = id from funext hid,
      List.map_id]

/-- **C8.** The Record Reader's in-place header rewrite is idempotent by
content: rewriting the lines of a raw file a second time — whether the
fixed-header replacement used for acceleration/velocity files or the
`'Angle'`-truncating rewrite used for deformation files — leaves exactly the
content produced by the first rewrite. -/
theorem record_reader_rewrite_idempotent (ls : List Str) :
    rewriteFirstLines accHeader (rewriteFirstLines accHeader ls) =
        rewriteFirstLines accHeader ls ∧
    rewriteFirstLines velHeader (rewriteFirstLines velHeader ls) =
        rewriteFirstLines velHeader ls ∧
    rewriteDefLines (rewriteDefLines ls) = rewriteDefLines ls := by
  refine ⟨rewriteFirstLines_idem _ _, rewriteFirstLines_idem _ _, ?_⟩
  unfold rewriteDefLines
  rw [List.map_map]
  exact List.map_congr_left fun a _ => rewriteDefLine_idem a

/-! ## The Unit Normalizer (claim C2) -/

theorem accel_step_ok {r : Row3} {o : Row4}
    (h : (do pure (r.1, ← pvalDiv (981/100) r.2.1, r.2.1, r.2.2) :
        Except PyErr Row4) = .ok o) :
    o.1 = r.1 ∧ o.2.2.1 = r.2.1 ∧ o.2.2.2 = r.2.2 ∧
    ∀ q, r.2.1 = .num q → o.2.1 = .num (q / (981/100)) := by
  rw [except_bind_ok] at h
  obtain ⟨g, hg, hpure⟩ := h
  injection hpure with hpure
  subst hpure
  obtain ⟨f, a, p⟩ := r
  rcases a with q | _ | s
  · simp only [pvalDiv, Except.ok.injEq] at hg
    subst hg
    exact ⟨rfl, rfl, rfl, fun q' hq => by cases hq; rfl⟩
  · exact ⟨rfl, rfl, rfl, fun q' hq => by cases hq⟩
  · simp only [pvalDiv] at hg
    cases hg

theorem deform_step_ok {r o : Row3}
    (h : (do pure (r.1, ← pvalMul 1000 r.2.1, r.2.2) : Except PyErr Row3) = .ok o) :
    o.1 = r.1 ∧ o.2.2 = r.2.2 ∧
    ∀ q, r.2.1 = .num q → o.2.1 = .num (q * 1000) := by
  rw [except_bind_ok] at h
  obtain ⟨g, hg, hpure⟩ := h
  injection hpure with hpure
  subst hpure
  obtain ⟨f, a, p⟩ := r
  rcases a with q | _ | s
  · simp only [pvalMul, Except.ok.injEq] at hg
    subst hg
    exact ⟨rfl, rfl, fun q' hq => by cases hq; rfl⟩
  · exact ⟨rfl, rfl, fun q' hq => by cases hq⟩
  · simp only [pvalMul] at hg
    cases hg

/-- **C2.** For every successfully read raw file the Unit Normalizer derives
fields without losing the originals: for acceleration each output row keeps
its `Frequency`, `Amplitude` and `Phase Angle` values and gains an
`Amplitude_g` equal to `Amplitude / 9.81`; for deformation the resulting
amplitude is `1e3` times the raw amplitude while frequency and phase are
kept; velocity rows are returned exactly as read. -/
theorem unit_normalizer_derives_without_losing_originals
    (cA cD cV : List Str) (rsA : List Row3) (outA : List Row4)
    (rsD outD outV : List Row3)
    (hA : readCsv3 (rewriteFirstLines accHeader cA) = .ok rsA)
    (hAo : processAccelerationFile cA = .ok outA)
    (hD : readCsv3 (rewriteDefLines cD) = .ok rsD)
    (hDo : processDeformationFile cD = .ok outD)
    (hVo : processVelocityFile cV = .ok outV) :
    List.Forall₂ (fun (r : Row3) (o : Row4) =>
        o.1 = r.1 ∧ o.2.2.1 = r.2.1 ∧ o.2.2.2 = r.2.2 ∧
        ∀ q, r.2.1 = .num q → o.2.1 = .num (q / (981/100))) rsA outA ∧
    List.Forall₂ (fun (r o : Row3) =>
        o.1 = r.1 ∧ o.2.2 = r.2.2 ∧
        ∀ q, r.2.1 = .num q → o.2.1 = .num (q * 1000)) rsD outD ∧
    readCsv3 (rewriteFirstLines velHeader cV) = .ok outV := by
  refine ⟨?_, ?_, hVo⟩
  · unfold processAccelerationFile at hAo
    rw [except_bind_ok] at hAo
    obtain ⟨rows, hrows, hmap⟩ := hAo
    rw [hA] at hrows
    cases hrows
    exact (mapM_ok_forall₂.mp hmap).imp fun r o h => accel_step_ok h
  · unfold processDeformationFile at hDo
    rw [except_bind_ok] at hDo
    obtain ⟨rows, hrows, hmap⟩ := hDo
    rw [hD] at hrows
    cases hrows
    exact (mapM_ok_forall₂.mp hmap).imp fun r o h => deform_step_ok h

theorem unit_normalizer_witness :
    List.Forall₂ (fun (r : Row3) (o : Row4) =>
        o.1 = r.1 ∧ o.2.2.1 = r.2.1 ∧ o.2.2.2 = r.2.2 ∧
        ∀ q, r.2.1 = .num q → o.2.1 = .num (q / (981/100)))
      [(.num 1, .num 2, .num 3)] [(.num 1, .num (200/981), .num 2, .num 3)] ∧
    List.Forall₂ (fun (r o : Row3) =>
        o.1 = r.1 ∧ o.2.2 = r.2.2 ∧
        ∀ q, r.2.1 = .num q → o.2.1 = .num (q * 1000))
      [(.num 1, .num 2, .num 3)] [(.num 1, .num 2000, .num 3)] ∧
    readCsv3 (rewriteFirstLines velHeader (exFile 1)) = .ok [(.num 1, .num 2, .num 3)] :=
  unit_normalizer_derives_without_losing_originals (exFile 1) (exFile 1) (exFile 1)
    [(.num 1, .num 2, .num 3)] [(.num 1, .num (200/981), .num 2, .num 3)]
    [(.num 1, .num 2, .num 3)] [(.num 1, .num 2000, .num 3)] [(.num 1, .num 2, .num 3)]
    (by decide) (by decide) (by decide) (by decide) (by decide)

/-! ## Record Reader error behaviour (claim C6) -/

/-- **C7.** The Dataset Assembler fails whenever the `data/deformation/`
directory is absent — `os.listdir` raises `FileNotFoundError` — and it can
never return a dataset when some axis matches a number of files other
than 8: the fixed-arity namedtuple construction (or an earlier per-file
failure) raises before a value is produced. -/
theorem dataset_assembler_failures (d : DataDir) :
    (d.listing = none → get_deformation_data d = .error .fileNotFound) ∧
    (∀ ls, d.listing = some ls →
      ((axisSplit ls).1.length ≠ 8 ∨ (axisSplit ls).2.1.length ≠ 8 ∨
        (axisSplit ls).2.2.length ≠ 8) →
      ∀ out, get_deformation_data d ≠ .ok out) := by
  constructor
  · intro h
    unfold get_deformation_data assemble
    rw [h]
  · intro ls hls hbad out hok
    unfold get_deformation_data assemble at hok
    rcases haxis : axisSplit ls with ⟨xs, ys, zs⟩
    simp only [hls, haxis] at hok
    rw [except_bind_ok] at hok
    obtain ⟨dx, hdx, hok⟩ := hok
    rw [except_bind_ok] at hok
    obtain ⟨dy, hdy, hok⟩ := hok
    rw [except_bind_ok] at hok
    obtain ⟨dz, hdz, hok⟩ := hok
    rw [except_bind_ok] at hok
    obtain ⟨tx, htx, hok⟩ := hok
    rw [except_bind_ok] at hok
    obtain ⟨ty, hty, hok⟩ := hok
    rw [except_bind_ok] at hok
    obtain ⟨tz, htz, _⟩ := hok
    have hlx : dx.length = 8 := by
      unfold namedtuple8 at htx
      split at htx
      · assumption
      · cases htx
    have hly : dy.length = 8 := by
      unfold namedtuple8 at hty
      split at hty
      · assumption
      · cases hty
    have hlz : dz.length = 8 := by
      unfold namedtuple8 at htz
      split at htz
      · assumption
      · cases htz
    have e1 := mapM_ok_length hdx
    have e2 := mapM_ok_length hdy
    have e3 := mapM_ok_length hdz
    rw [haxis] at hbad
    simp only at hbad
    rcases hbad with hb | hb | hb <;> omega

theorem dataset_assembler_failures_witness :
    get_deformation_data ⟨none, exRead⟩ = .error .fileNotFound ∧
    ∀ out, get_deformation_data exDir7 ≠ .ok out :=
  ⟨(dataset_assembler_failures ⟨none, exRead⟩).1 rfl,
   (dataset_assembler_failures exDir7).2 _ rfl (by decide)⟩

/-! ## The Modal Frequency Loader (claim C9) -/

theorem foldr_max_const {L : ℕ} :
    ∀ {ns : List ℕ}, ns ≠ [] → (∀ n ∈ ns, n = L) → ns.foldr max 0 = L := by
  intro ns
  induction ns with
  | nil => intro h _; exact absurd rfl h
  | cons x t ih =>
    intro _ hall
    have hx : x = L := hall x (List.mem_cons_self x t)
    cases t with
    | nil => simp [hx]
    | cons y u =>
      have ht : (y :: u).foldr max 0 = L :=
        ih (by simp) fun n hn => hall n (List.mem_cons_of_mem x hn)
      simp only [List.foldr_cons] at ht ⊢
      rw [ht, hx]
      exact Nat.max_self L

/-- **C9.** On a tab-separated file whose (stripped) header contains a
`Frequency` column exactly once and whose data rows all have the header's
width with a float-parsing `Frequency` field, `get_modal_frequencies` returns
exactly those values as numbers in file order; and on any file whose header
has no `Frequency` column it fails (the `df['Frequency']` lookup raises
`KeyError`, the spec's `MissingColumnError`, unless an earlier
frame-construction error fired). -/
theorem modal_frequency_loader (content : List Str) (hd : Str) (tl : List Str)
    (qs : List ℚ)
    (hlines : content.map pstrip = hd :: tl)
    (hcount : (splitCh '\t' hd).count freqName = 1)
    (hwidth : ∀ l ∈ tl, (splitCh '\t' l).length = (splitCh '\t' hd).length)
    (hvals : List.Forall₂ (fun l q => ∃ s,
        (splitCh '\t' l).get? ((splitCh '\t' hd).indexOf freqName) = some s ∧
        pyFloat s = some (.num q)) tl qs) :
    get_modal_frequencies content = .ok (qs.map PyNum.num) ∧
    (∀ c hd' tl', c.map pstrip = hd' :: tl' → freqName ∉ splitCh '\t' hd' →
      ∀ out, get_modal_frequencies c ≠ .ok out) := by
  constructor
  · unfold get_modal_frequencies
    simp only [hlines]
    have hcond : ¬ (tl.map (splitCh '\t') ≠ [] ∧
        ((tl.map (splitCh '\t')).map List.length).foldr max 0 ≠
          (splitCh '\t' hd).length) := by
      rintro ⟨hne, hbadw⟩
      refine hbadw (foldr_max_const ?_ ?_)
      · simpa using fun h => hne (by simp [h])
      · intro n hn
        simp only [List.map_map, List.mem_map] at hn
        obtain ⟨l, hl, rfl⟩ := hn
        exact hwidth l hl
    rw [if_neg hcond, if_neg (by omega), if_neg (by omega)]
    refine mapM_ok_forall₂.mpr ?_
    rw [List.forall₂_map_right_iff, List.forall₂_map_left_iff]
    refine hvals.imp ?_
    rintro l q ⟨s, hs, hq⟩
    simp only [hs, hq]
  · intro c hd' tl' hlines' hnofreq out hok
    unfold get_modal_frequencies at hok
    simp only [hlines'] at hok
    have hc0 : (splitCh '\t' hd').count freqName = 0 := List.count_eq_zero.mpr hnofreq
    split at hok
    all_goals exact Except.noConfusion hok

theorem modal_frequency_loader_witness :
    get_modal_frequencies exModes = .ok [.num (21/2), .num (223/10)] ∧
    get_modal_frequencies exModesNoFreq ≠ .ok [] := by
  have h := modal_frequency_loader exModes ("Frequency\tAmplitude".toList)
    (["10.5\t7.7", "22.3\t8.8"].map String.toList) [21/2, 223/10]
    (by decide) (by decide) (by decide)
    (List.Forall₂.cons ⟨"10.5".toList, by decide, by decide⟩
      (List.Forall₂.cons ⟨"22.3".toList, by decide, by decide⟩ List.Forall₂.nil))
  exact ⟨h.1, h.2 exModesNoFreq ("Freq\tAmplitude".toList)
    (["10.5\t7.7"].map String.toList) (by decide) (by decide) []⟩

/-! ## Dataset Assembler ordering (claim C4) -/

theorem axisSplit_subset (ls : List Str) :
    (axisSplit ls).1 ⊆ ls ∧ (axisSplit ls).2.1 ⊆ ls ∧ (axisSplit ls).2.2 ⊆ ls := by
  refine ⟨?_, ?_, ?_⟩ <;>
    · intro x hx
      simp only [axisSplit] at hx
      exact List.mem_of_mem_filter (List.mem_of_mem_filter hx)

/-- **C4 counterexample.** A folder with exactly 8 well-named files per axis
on which the assembler succeeds with `len() == 8` per axis, but whose
directory enumeration lists `DIMM2z.txt` first: the sensor order of the
returned `z` collection is 2, 1, 3, .., 8 — it follows the enumeration
order, not the ascending numeric suffix (the first entry holds `DIMM2`'s
data, frequency 2, rather than `DIMM1`'s). -/
theorem dataset_assembler_order_counterexample :
    (axisSplit exListingUnsorted).1.length = 8 ∧
    (axisSplit exListingUnsorted).2.1.length = 8 ∧
    (axisSplit exListingUnsorted).2.2.length = 8 ∧
    get_deformation_data exDirUnsorted =
      .ok (List.replicate 8 [(.num 9, .num 2000, .num 3)],
           List.replicate 8 [(.num 9, .num 2000, .num 3)],
           [[(.num 2, .num 2000, .num 3)], [(.num 1, .num 2000, .num 3)],
            [(.num 3, .num 2000, .num 3)], [(.num 4, .num 2000, .num 3)],
            [(.num 5, .num 2000, .num 3)], [(.num 6, .num 2000, .num 3)],
            [(.num 7, .num 2000, .num 3)], [(.num 8, .num 2000, .num 3)]]) := by
  refine ⟨by decide, by decide, by decide, by decide⟩

/-- **C4 amended.** The Dataset Assembler reads files in
directory-enumeration order; whenever the enumeration presents each axis's
8 well-named files in ascending filename order (`DIMM1..DIMM8`), it returns
a SensorSet of length 8 per axis whose sensor order matches the ascending
numeric suffix. -/
theorem dataset_assembler_listing_order (rd : Str → List Str) (ls : List Str)
    (g : Str → List Row3)
    (haxis : axisSplit ls =
      (dimmNames "x".toList, dimmNames "y".toList, dimmNames "z".toList))
    (hproc : ∀ f ∈ ls, processDeformationFile (rd f) = .ok (g f)) :
    get_deformation_data ⟨some ls, rd⟩ =
      .ok ((dimmNames "x".toList).map g, (dimmNames "y".toList).map g,
           (dimmNames "z".toList).map g) ∧
    ((dimmNames "z".toList).map g).length = 8 := by
  have hsub := axisSplit_subset ls
  rw [haxis] at hsub
  have hx : (dimmNames "x".toList).mapM (fun f => processDeformationFile (rd f)) =
      .ok ((dimmNames "x".toList).map g) :=
    mapM_eq_map g fun f hf => hproc f (hsub.1 hf)
  have hy : (dimmNames "y".toList).mapM (fun f => processDeformationFile (rd f)) =
      .ok ((dimmNames "y".toList).map g) :=
    mapM_eq_map g fun f hf => hproc f (hsub.2.1 hf)
  have hz : (dimmNames "z".toList).mapM (fun f => processDeformationFile (rd f)) =
      .ok ((dimmNames "z".toList).map g) :=
    mapM_eq_map g fun f hf => hproc f (hsub.2.2 hf)
  have hlen : ∀ ax : Str, ((dimmNames ax).map g).length = 8 := by
    intro ax
    simp [dimmNames]
  refine ⟨?_, hlen _⟩
  unfold get_deformation_data assemble
  simp only [haxis]
  rw [hx, hy, hz]
  simp only [Bind.bind, Except.bind, namedtuple8, hlen, if_pos]
  rfl

theorem dataset_assembler_listing_order_witness :
    get_deformation_data exDirSorted =
      .ok ((dimmNames "x".toList).map exG, (dimmNames "y".toList).map exG,
           (dimmNames "z".toList).map exG) ∧
    ((dimmNames "z".toList).map exG).length = 8 :=
  dataset_assembler_listing_order exRead exListingSorted exG (by decide) (by decide)

/-! ## The acceleration middle-column reorder (claim C10) -/

theorem swap12_ok {α : Type} {l l' : List α} (h : swap12 l = .ok l') :
    ∃ a b c t, l = a :: b :: c :: t ∧ l' = a :: c :: b :: t := by
  unfold swap12 at h
  split at h
  · next a b c t =>
    injection h with h
    exact ⟨a, b, c, t, rfl, h.symm⟩
  · exact Except.noConfusion h

theorem swap12_row_assoc {cols : List Str} {cols' : List Str}
    {r r' : List Cell} (hc : swap12 cols = .ok cols') (hr : swap12 r = .ok r') :
    (cols'.zip r').Perm (cols.zip r) ∧
    r'.get? 0 = r.get? 0 ∧ r'.get? 1 = r.get? 2 ∧ r'.get? 2 = r.get? 1 ∧
    r'.drop 3 = r.drop 3 := by
  obtain ⟨a, b, c, t, rfl, rfl⟩ := swap12_ok hc
  obtain ⟨x, y, z, u, rfl, rfl⟩ := swap12_ok hr
  refine ⟨?_, rfl, rfl, rfl, rfl⟩
  simp only [List.zip_cons_cons]
  exact List.Perm.cons _ (List.Perm.swap _ _ _)

/-- **C10.** In the acceleration `to_df`, the middle-column reorder
(`columns[1], columns[2] = columns[2], columns[1]` together with
`r[1], r[2] = r[2], r[1]` on every row) swaps both the column labels and,
in every data row, the corresponding pair of values: the zipped
(label, value) association of every row is preserved up to permutation, and
only positions 1 and 2 of the label list and of each row change (position 0
and everything from position 3 on are untouched). -/
theorem acceleration_middle_swap_preserves_association (df : Table)
    (cols' : List Str) (rows' : List (List Cell))
    (hc : swap12 df.cols = .ok cols') (hr : df.rows.mapM swap12 = .ok rows') :
    (cols'.get? 0 = df.cols.get? 0 ∧ cols'.get? 1 = df.cols.get? 2 ∧
      cols'.get? 2 = df.cols.get? 1 ∧ cols'.drop 3 = df.cols.drop 3) ∧
    List.Forall₂ (fun r r' =>
      (cols'.zip r').Perm (df.cols.zip r) ∧
      r'.get? 0 = r.get? 0 ∧ r'.get? 1 = r.get? 2 ∧ r'.get? 2 = r.get? 1 ∧
      r'.drop 3 = r.drop 3) df.rows rows' := by
  constructor
  · obtain ⟨a, b, c, t, he, rfl⟩ := swap12_ok hc
    rw [he]
    exact ⟨rfl, rfl, rfl, rfl⟩
  · exact (mapM_ok_forall₂.mp hr).imp fun r r' h => swap12_row_assoc hc h

theorem acceleration_middle_swap_witness :
    (([freqCol, ampCol, ampGCol, phaseCol] : List Str).get? 0 = accSchema.get? 0 ∧
     ([freqCol, ampCol, ampGCol, phaseCol] : List Str).get? 1 = accSchema.get? 2 ∧
     ([freqCol, ampCol, ampGCol, phaseCol] : List Str).get? 2 = accSchema.get? 1 ∧
     ([freqCol, ampCol, ampGCol, phaseCol] : List Str).drop 3 = accSchema.drop 3) ∧
    List.Forall₂ (fun r r' =>
      (([freqCol, ampCol, ampGCol, phaseCol] : List Str).zip r').Perm (accSchema.zip r) ∧
      r'.get? 0 = r.get? 0 ∧ r'.get? 1 = r.get? 2 ∧ r'.get? 2 = r.get? 1 ∧
      r'.drop 3 = r.drop 3)
      [[some ("1.5".toList), some ("0.2".toList), some ("2.0".toList), some ("-3.0".toList)]]
      [[some ("1.5".toList), some ("2.0".toList), some ("0.2".toList), some ("-3.0".toList)]] :=
  acceleration_middle_swap_preserves_association
    ⟨accSchema, [[some ("1.5".toList), some ("0.2".toList), some ("2.0".toList),
      some ("-3.0".toList)]]⟩
    [freqCol, ampCol, ampGCol, phaseCol]
    [[some ("1.5".toList), some ("2.0".toList), some ("0.2".toList), some ("-3.0".toList)]]
    (by decide) (by decide)

/-! ## Parsing back a fixed-point rendering

`to_df` re-parses strings it has itself formatted (the `float(x) < 0` test on
the formatted phase angle), so the cell pipeline needs: parsing a
`fmtFixed`-rendered value recovers exactly the rendered rational. -/

theorem digitVal_digitChar10 {d : ℕ} (h : d < 10) : digitVal (digitChar10 d) = some d := by
  interval_cases d <;> decide

theorem digitChar10_mem (d : ℕ) :
    digitChar10 d ∈ ['0', '1', '2', '3', '4', '5', '6', '7', '8', '9'] := by
  unfold digitChar10
  split <;> decide

theorem toDigitsRev_lt (fuel : ℕ) :
    ∀ n, ∀ d ∈ toDigitsRev fuel n, d < 10 := by
  induction fuel with
  | zero => intro n d hd; cases hd
  | succ f ih =>
    intro n d hd
    unfold toDigitsRev at hd
    split at hd
    · cases hd
    · rcases List.mem_cons.mp hd with rfl | hd
      · exact Nat.mod_lt _ (by norm_num)
      · exact ih _ d hd

theorem toDigitsRev_val (fuel : ℕ) :
    ∀ n, n ≤ fuel → (toDigitsRev fuel n).foldr (fun d acc => d + 10 * acc) 0 = n := by
  induction fuel with
  | zero =>
    intro n h
    interval_cases n
    rfl
  | succ f ih =>
    intro n h
    unfold toDigitsRev
    split
    · next h0 => rw [h0]; rfl
    · next h0 =>
      simp only [List.foldr_cons]
      rw [ih (n / 10) (by omega)]
      omega

theorem toDigitsRev_length (fuel : ℕ) :
    ∀ n k, n ≤ fuel → n < 10 ^ k → (toDigitsRev fuel n).length ≤ k := by
  induction fuel with
  | zero =>
    intro n k h _
    interval_cases n
    simp [toDigitsRev]
  | succ f ih =>
    intro n k h hk
    unfold toDigitsRev
    split
    · simp
    · next h0 =>
      cases k with
      | zero =>
        norm_num at hk
        omega
      | succ k' =>
        simp only [List.length_cons]
        have hdiv : n / 10 < 10 ^ k' := by
          rw [Nat.div_lt_iff_lt_mul (by norm_num)]
          rw [pow_succ] at hk
          exact hk
        have := ih (n / 10) k' (by omega) hdiv
        omega

theorem foldl_reverse_horner (ds : List ℕ) :
    ∀ a, (ds.reverse).foldl (fun x d => x * 10 + d) a =
      a * 10 ^ ds.length + ds.foldr (fun d acc => d + 10 * acc) 0 := by
  induction ds with
  | nil => intro a; simp
  | cons d t ih =>
    intro a
    simp only [List.reverse_cons, List.foldl_append, List.foldl_cons, List.foldl_nil,
      List.length_cons, List.foldr_cons]
    rw [ih]
    ring

theorem digitsToNat_go (cs : List ℕ) :
    ∀ a, (∀ d ∈ cs, d < 10) →
      List.foldlM (fun x c => (digitVal c).map fun d => x * 10 + d) a
          (cs.map digitChar10) =
        some (cs.foldl (fun x d => x * 10 + d) a) := by
  induction cs with
  | nil => intro a _; rfl
  | cons d t ih =>
    intro a hall
    simp only [List.map_cons, List.foldlM_cons]
    rw [digitVal_digitChar10 (hall d (List.mem_cons_self d t))]
    simp only [Option.map_some', Option.bind_eq_bind, Option.some_bind]
    exact ih _ fun x hx => hall x (List.mem_cons_of_mem d hx)

theorem digitsToNat_natRepr (n : ℕ) : digitsToNat (natRepr n) = some n := by
  unfold natRepr
  split
  · next h => rw [h]; rfl
  · next h =>
    unfold digitsToNat
    rw [← List.map_reverse]
    rw [digitsToNat_go _ 0 fun d hd => toDigitsRev_lt n n d (List.mem_reverse.mp hd)]
    rw [foldl_reverse_horner]
    rw [toDigitsRev_val n n le_rfl]
    simp

theorem natRepr_ne_nil (n : ℕ) : natRepr n ≠ [] := by
  unfold natRepr
  split
  · simp
  · next h =>
    intro hc
    rw [List.reverse_eq_nil_iff, List.map_eq_nil_iff] at hc
    have := toDigitsRev_val n n le_rfl
    rw [hc] at this
    exact h this.symm

theorem natRepr_mem (n : ℕ) :
    ∀ c ∈ natRepr n, c ∈ ['0', '1', '2', '3', '4', '5', '6', '7', '8', '9'] := by
  unfold natRepr
  split
  · intro c hc
    rcases List.mem_singleton.mp hc with rfl
    decide
  · intro c hc
    rw [List.mem_reverse, List.mem_map] at hc
    obtain ⟨d, _, rfl⟩ := hc
    exact digitChar10_mem d

theorem padZeros_mem {n : ℕ} {ds : Str}
    (h : ∀ c ∈ ds, c ∈ ['0', '1', '2', '3', '4', '5', '6', '7', '8', '9']) :
    ∀ c ∈ padZeros n ds, c ∈ ['0', '1', '2', '3', '4', '5', '6', '7', '8', '9'] := by
  intro c hc
  rcases List.mem_append.mp hc with hc | hc
  · rcases List.eq_of_mem_replicate hc with rfl
    decide
  · exact h c hc

theorem padZeros_length {n : ℕ} {ds : Str} (h : ds.length ≤ n) :
    (padZeros n ds).length = n := by
  unfold padZeros
  rw [List.length_append, List.length_replicate]
  omega

theorem natRepr_length_le {n k : ℕ} (hk : 0 < k) (h : n < 10 ^ k) :
    (natRepr n).length ≤ k := by
  unfold natRepr
  split
  · simpa using hk
  · rw [List.length_reverse, List.length_map]
    exact toDigitsRev_length n n k le_rfl h

theorem digitsToNat_zeros_append (k : ℕ) (ds : Str) :
    digitsToNat (List.replicate k '0' ++ ds) = digitsToNat ds := by
  induction k with
  | zero => rfl
  | succ j ih =>
    unfold digitsToNat at ih ⊢
    simpa using ih

theorem pstrip_eq_self {s : Str} (h : ∀ c ∈ s, isWS c = false) : pstrip s = s := by
  have key : ∀ t : Str, (∀ c ∈ t, isWS c = false) → t.dropWhile isWS = t := by
    intro t ht
    cases t with
    | nil => rfl
    | cons x xs =>
      rw [List.dropWhile_cons, ht x (List.mem_cons_self x xs)]
      simp
  unfold pstrip
  rw [key s h, key s.reverse fun c hc => h c (List.mem_reverse.mp hc),
    List.reverse_reverse]

theorem splitCh_not_mem {c : Char} {s : Str} (h : c ∉ s) : splitCh c s = [s] := by
  induction s with
  | nil => rfl
  | cons x xs ih =>
    unfold splitCh
    rw [if_neg (fun he : x = c => h (he ▸ List.mem_cons_self x xs))]
    rw [ih fun hc => h (List.mem_cons_of_mem x hc)]

theorem splitCh_append_cons {c : Char} {A B : Str} (hA : c ∉ A) (hB : c ∉ B) :
    splitCh c (A ++ c :: B) = [A, B] := by
  induction A with
  | nil =>
    simp only [List.nil_append]
    unfold splitCh
    rw [if_pos rfl, splitCh_not_mem hB]
  | cons x xs ih =>
    simp only [List.cons_append]
    unfold splitCh
    rw [if_neg (fun he : x = c => hA (he ▸ List.mem_cons_self x xs))]
    rw [ih fun hc => hA (List.mem_cons_of_mem x hc)]

theorem digit_not_special {c : Char}
    (h : c ∈ ['0', '1', '2', '3', '4', '5', '6', '7', '8', '9']) :
    isWS c = false ∧ c.toLower = c ∧ c ≠ 'e' ∧ c ≠ '-' ∧ c ≠ '+' ∧ c ≠ '.' ∧
      c ≠ 'n' := by
  fin_cases h <;> exact ⟨by decide, by decide, by decide, by decide, by decide,
    by decide, by decide⟩

theorem parseMantissa_render (n : ℕ) (hn : 0 < n) (a : ℕ) :
    parseMantissa (natRepr (a / 10 ^ n) ++ '.' :: padZeros n (natRepr (a % 10 ^ n))) =
      some (a / 10 ^ n * 10 ^ n + a % 10 ^ n, n) := by
  have hI := natRepr_mem (a / 10 ^ n)
  have hF := padZeros_mem (n := n) (natRepr_mem (a % 10 ^ n))
  have hnodotI : '.' ∉ natRepr (a / 10 ^ n) := fun hmem =>
    absurd rfl (digit_not_special (hI '.' hmem)).2.2.2.2.2.1
  have hnodotF : '.' ∉ padZeros n (natRepr (a % 10 ^ n)) := fun hmem =>
    absurd rfl (digit_not_special (hF '.' hmem)).2.2.2.2.2.1
  have hZlen : (natRepr (a % 10 ^ n)).length ≤ n :=
    natRepr_length_le hn (Nat.mod_lt _ (Nat.pos_pow_of_pos n (by norm_num)))
  have hFlen : (padZeros n (natRepr (a % 10 ^ n))).length = n := padZeros_length hZlen
  unfold parseMantissa
  rw [splitCh_append_cons hnodotI hnodotF]
  simp only [decide_eq_false (natRepr_ne_nil (a / 10 ^ n)), Bool.false_and,
    Bool.false_eq_true, if_false]
  rw [show padZeros n (natRepr (a % 10 ^ n)) =
    List.replicate (n - (natRepr (a % 10 ^ n)).length) '0' ++ natRepr (a % 10 ^ n) from rfl]
  rw [digitsToNat_zeros_append, digitsToNat_natRepr, digitsToNat_natRepr]
  show some _ = some _
  simp only [List.length_append, List.length_replicate, Nat.sub_add_cancel hZlen]

theorem pyFloat_render (n : ℕ) (hn : 0 < n) (a : ℕ) (neg : Bool) :
    pyFloat ((if neg then ['-'] else []) ++
        (natRepr (a / 10 ^ n) ++ '.' :: padZeros n (natRepr (a % 10 ^ n)))) =
      some (.num (if neg then -((a : ℚ) / 10 ^ n) else (a : ℚ) / 10 ^ n)) := by
  have hI := natRepr_mem (a / 10 ^ n)
  have hF := padZeros_mem (n := n) (natRepr_mem (a % 10 ^ n))
  obtain ⟨c, cs, hIc⟩ := List.exists_cons_of_ne_nil (natRepr_ne_nil (a / 10 ^ n))
  have hcdig : c ∈ ['0', '1', '2', '3', '4', '5', '6', '7', '8', '9'] := by
    rw [hIc] at hI
    exact hI c (List.mem_cons_self c cs)
  have hmemT : ∀ x ∈ natRepr (a / 10 ^ n) ++ '.' :: padZeros n (natRepr (a % 10 ^ n)),
      x ∈ ['0', '1', '2', '3', '4', '5', '6', '7', '8', '9'] ∨ x = '.' := by
    intro x hx
    rcases List.mem_append.mp hx with hx | hx
    · exact Or.inl (hI x hx)
    · rcases List.mem_cons.mp hx with rfl | hx
      · exact Or.inr rfl
      · exact Or.inl (hF x hx)
  have hwsT : ∀ x ∈ natRepr (a / 10 ^ n) ++ '.' :: padZeros n (natRepr (a % 10 ^ n)),
      isWS x = false := by
    intro x hx
    rcases hmemT x hx with hd | rfl
    · exact (digit_not_special hd).1
    · decide
  have hws : ∀ x ∈ (if neg then ['-'] else []) ++
      (natRepr (a / 10 ^ n) ++ '.' :: padZeros n (natRepr (a % 10 ^ n))),
      isWS x = false := by
    intro x hx
    rcases List.mem_append.mp hx with hx | hx
    · cases neg with
      | false => simp at hx
      | true =>
        simp at hx
        subst hx
        decide
    · exact hwsT x hx
  have hlower : (natRepr (a / 10 ^ n) ++
      '.' :: padZeros n (natRepr (a % 10 ^ n))).map Char.toLower =
      natRepr (a / 10 ^ n) ++ '.' :: padZeros n (natRepr (a % 10 ^ n)) := by
    have key : ∀ x ∈ natRepr (a / 10 ^ n) ++ '.' :: padZeros n (natRepr (a % 10 ^ n)),
        Char.toLower x = x := by
      intro x hx
      rcases hmemT x hx with hd | rfl
      · exact (digit_not_special hd).2.1
      · decide
    rw [List.map_congr_left key]
    simp
  have hnotnan : ¬ (natRepr (a / 10 ^ n) ++ '.' :: padZeros n (natRepr (a % 10 ^ n)) =
      "nan".toList) := by
    intro heq
    rw [hIc] at heq
    have hcn : c = 'n' := by
      have := congrArg List.head? heq
      simpa using this
    exact (digit_not_special hcdig).2.2.2.2.2.2 hcn
  have hnoe : 'e' ∉ natRepr (a / 10 ^ n) ++ '.' :: padZeros n (natRepr (a % 10 ^ n)) := by
    intro hmem
    rcases hmemT 'e' hmem with hd | hd
    · exact absurd rfl (digit_not_special hd).2.2.1
    · cases hd
  have hsign : parseSign ((if neg then ['-'] else []) ++
      (natRepr (a / 10 ^ n) ++ '.' :: padZeros n (natRepr (a % 10 ^ n)))) =
      (neg, natRepr (a / 10 ^ n) ++ '.' :: padZeros n (natRepr (a % 10 ^ n))) := by
    cases neg with
    | false =>
      rw [show (if (false : Bool) = true then ['-'] else ([] : Str)) = [] from rfl,
        List.nil_append, hIc, List.cons_append]
      simp only [parseSign]
      rw [if_neg (digit_not_special hcdig).2.2.2.1,
        if_neg (digit_not_special hcdig).2.2.2.2.1]
    | true =>
      rw [show (if (true : Bool) = true then ['-'] else ([] : Str)) = ['-'] from rfl,
        List.singleton_append]
      simp only [parseSign]
      simp
  have hval : ((a / 10 ^ n * 10 ^ n + a % 10 ^ n : ℕ) : ℚ) = (a : ℚ) := by
    congr 1
    rw [Nat.mul_comm]
    exact Nat.div_add_mod a (10 ^ n)
  unfold pyFloat
  rw [pstrip_eq_self hws]
  simp only [hsign]
  rw [hlower, if_neg hnotnan, splitCh_not_mem hnoe]
  simp only [parseMantissa_render n hn a]
  simp only [Option.bind_eq_bind, Option.some_bind, hval]
  rfl

theorem pyFloat_fmtFixed (n : ℕ) (hn : 0 < n) (w : ℚ) :
    pyFloat (fmtFixed n w) = some (.num ((rhe (w * 10 ^ n) : ℚ) / 10 ^ n)) := by
  have hn0 : n ≠ 0 := Nat.pos_iff_ne_zero.mp hn
  simp only [fmtFixed]
  rw [if_neg hn0]
  by_cases hneg : rhe (w * 10 ^ n) < 0
  · rw [if_pos hneg, List.append_assoc]
    have h : pyFloat (['-'] ++ (natRepr ((rhe (w * 10 ^ n)).natAbs / 10 ^ n) ++ '.' ::
        padZeros n (natRepr ((rhe (w * 10 ^ n)).natAbs % 10 ^ n)))) =
        some (.num (-((((rhe (w * 10 ^ n)).natAbs : ℕ) : ℚ) / 10 ^ n))) :=
      pyFloat_render n hn ((rhe (w * 10 ^ n)).natAbs) true
    rw [h]
    congr 2
    rw [Int.cast_natAbs, abs_of_neg (by exact_mod_cast hneg)]
    push_cast
    ring
  · rw [if_neg hneg, List.nil_append]
    have h : pyFloat (natRepr ((rhe (w * 10 ^ n)).natAbs / 10 ^ n) ++ '.' ::
        padZeros n (natRepr ((rhe (w * 10 ^ n)).natAbs % 10 ^ n))) =
        some (.num ((((rhe (w * 10 ^ n)).natAbs : ℕ) : ℚ) / 10 ^ n)) :=
      pyFloat_render n hn ((rhe (w * 10 ^ n)).natAbs) false
    rw [h]
    congr 2
    rw [Int.cast_natAbs, abs_of_nonneg (by exact_mod_cast not_lt.mp hneg)]

theorem rhe_intCast (m : ℤ) : rhe ((m : ℚ)) = m := by
  unfold rhe
  rw [Int.floor_intCast]
  simp only [sub_self]
  norm_num

theorem pyFloat_fmtFixed_round (q : ℚ) :
    pyFloat (fmtFixed 4 (pyRound 3 q)) = some (.num (pyRound 3 q)) := by
  rw [pyFloat_fmtFixed 4 (by norm_num)]
  have h : pyRound 3 q * 10 ^ 4 = ((10 * rhe (q * 10 ^ 3) : ℤ) : ℚ) := by
    unfold pyRound
    push_cast
    ring
  rw [h, rhe_intCast]
  congr 2
  unfold pyRound
  push_cast
  ring

theorem bind_pure_ok {ε α β : Type} (a : α) (g : α → Except ε β) :
    (Except.ok a >>= g) = g a := rfl

theorem cellFmt_parse_none (ndig : ℕ) {s : Str} {q : ℚ}
    (h : pyFloat s = some (.num q)) :
    cellFmt ndig none (some s) = .ok (some (fmtFixed ndig q)) := by
  simp only [cellFmt, cellFloat, h]
  rfl

theorem cellFmt_parse_round (ndig m : ℕ) {s : Str} {q : ℚ}
    (h : pyFloat s = some (.num q)) :
    cellFmt ndig (some m) (some s) = .ok (some (fmtFixed ndig (pyRound m q))) := by
  simp only [cellFmt, cellFloat, h]
  rfl

theorem cellTrunc_some (n : ℕ) (s : Str) :
    cellTrunc n (some s) = .ok (some (s.take n)) := rfl

theorem cellPhaseTrunc_round (q : ℚ) :
    cellPhaseTrunc (some (fmtFixed 4 (pyRound 3 q))) =
      .ok (some (if pyRound 3 q < 0 then (fmtFixed 4 (pyRound 3 q)).take 6
                 else (fmtFixed 4 (pyRound 3 q)).take 5)) := by
  simp only [cellPhaseTrunc, cellFloat, pyFloat_fmtFixed_round q]
  by_cases hneg : pyRound 3 q < 0
  · rw [if_pos hneg]
    simp only [bind_pure_ok, pyNeg, decide_eq_true_eq, if_pos hneg]
    rfl
  · rw [if_neg hneg]
    simp only [bind_pure_ok, pyNeg, decide_eq_true_eq, if_neg hneg]
    rfl

/-- **C3.** The Summary-Block Parser's per-cell formatting pipeline (the
composition of the `astype(float).map(format)` stage and the truncation
stage that `to_df` applies to each column) satisfies the fixed
rounding-and-width table: a frequency cell is formatted with `'{:.4f}'` and
truncated to 5 characters (so the value 12.34567 yields "12.34"); an
acceleration-report amplitude cell is rounded to 4 decimals, formatted, and
truncated to 6 characters; a velocity/deformation amplitude cell is rounded
to 6 decimals, formatted, and truncated to 8 characters; a phase-angle cell
is rounded to 3 decimals, formatted, and truncated to 6 characters when the
rounded value is negative, else 5. -/
theorem formatting_rule_table :
    ((fmtFixed 4 (1234567 / 100000 : ℚ)).take 5 = "12.34".toList) ∧
    (∀ s : Str, ∀ q : ℚ, pyFloat s = some (.num q) →
      (cellFmt 4 none (some s) >>= cellTrunc 5 =
          .ok (some ((fmtFixed 4 q).take 5))) ∧
      (cellFmt 4 (some 4) (some s) >>= cellTrunc 6 =
          .ok (some ((fmtFixed 4 (pyRound 4 q)).take 6))) ∧
      (cellFmt 6 (some 6) (some s) >>= cellTrunc 8 =
          .ok (some ((fmtFixed 6 (pyRound 6 q)).take 8))) ∧
      (cellFmt 4 (some 3) (some s) >>= cellPhaseTrunc =
          .ok (some (if pyRound 3 q < 0 then (fmtFixed 4 (pyRound 3 q)).take 6
                     else (fmtFixed 4 (pyRound 3 q)).take 5)))) := by
  refine ⟨by decide, fun s q h => ⟨?_, ?_, ?_, ?_⟩⟩
  · rw [cellFmt_parse_none 4 h, bind_pure_ok, cellTrunc_some]
  · rw [cellFmt_parse_round 4 4 h, bind_pure_ok, cellTrunc_some]
  · rw [cellFmt_parse_round 6 6 h, bind_pure_ok, cellTrunc_some]
  · rw [cellFmt_parse_round 4 3 h, bind_pure_ok, cellPhaseTrunc_round]

theorem formatting_rule_table_witness :
    (cellFmt 4 none (some ("12.34567".toList)) >>= cellTrunc 5 =
      .ok (some ("12.34".toList))) ∧
    (cellFmt 4 (some 3) (some ("-0.05".toList)) >>= cellPhaseTrunc =
      .ok (some ("-0.050".toList))) := by
  have h1 := (formatting_rule_table.2 ("12.34567".toList) (1234567 / 100000)
    (by decide)).1
  have h4 := (formatting_rule_table.2 ("-0.05".toList) (-(5 / 100))
    (by decide)).2.2.2
  refine ⟨?_, ?_⟩
  · rw [h1]
    decide
  · rw [h4]
    decide

theorem mkDfC_ok_cols {cols : List Str} {rows : List (List Cell)} {t : Table}
    (h : mkDfC cols rows = .ok t) : t.cols = cols := by
  simp only [mkDfC] at h
  split at h
  · exact Except.noConfusion h
  · injection h with h
    subst h
    rfl

theorem swap12_mem {α : Type} {l l2 : List α} (h : swap12 l = .ok l2) (x : α) :
    x ∈ l2 ↔ x ∈ l := by
  match l with
  | [] => exact Except.noConfusion h
  | [a] => exact Except.noConfusion h
  | [a, b] => exact Except.noConfusion h
  | a :: b :: c :: t =>
    injection h with h
    subst h
    simp only [List.mem_cons]
    tauto

theorem loadDescription_short (f : List Str → Except PyErr Table)
    (content : List Str) (h : content.length < 105) :
    loadDescription f content = .error .indexError := by
  have hbody : ((content.map pstrip).drop 6).length ≤ 98 := by
    rw [List.length_drop, List.length_map]
    omega
  have hslice : sliceAt ((content.map pstrip).drop 6) 98 = [] := by
    unfold sliceAt
    rw [List.drop_eq_nil_of_le hbody]
    rfl
  have hmapM : blockStarts.mapM
      (fun k => dStep (sliceAt ((content.map pstrip).drop 6) k)) =
      .error .indexError := by
    apply mapM_error_of
    · intro k _
      cases hs : sliceAt ((content.map pstrip).drop 6) k with
      | nil =>
        right
        rfl
      | cons a t =>
        left
        exact ⟨('\t' :: a) :: t.drop 1, rfl⟩
    · exact ⟨98, by decide, by rw [hslice]; rfl⟩
  simp only [loadDescription, hmapM]
  rfl

/-- **C5.** (amended) The Summary-Block Parsers fail with `IndexError`
whenever the input has fewer than 105 lines (105 = 6 preamble lines + 98,
the start of the last fixed block slice, + 1; below this the last `lines[0]`
access is out of range), and a block whose processed header line yields no
`Frequency` column label can never be converted to a table. The spec's
threshold `6 + 8*14 - 5 = 113` is wrong (nothing reads past offset 107 of
the body), and no `MalformedReportError` exists in the code. -/
theorem summary_parser_failure_conditions :
    (∀ content : List Str, content.length < 105 →
      load_dfs_from_description__velocity_deformation content = .error .indexError ∧
      load_dfs_from_description__acceleration content = .error .indexError) ∧
    (∀ l : Str, ∀ ls : List Str, lacksFreq l = true →
      (to_df_velocity_deformation (l :: ls)).isOk = false ∧
      (to_df_acceleration (l :: ls)).isOk = false) := by
  constructor
  · intro content h
    exact ⟨loadDescription_short _ content h, loadDescription_short _ content h⟩
  · intro l ls hl
    constructor
    · simp only [to_df_velocity_deformation, List.map_cons]
      cases hc : headerCols (takeBeforeSPat l) with
      | error e => rfl
      | ok cols =>
        have hfreq : freqCol ∉ cols := by
          simp only [lacksFreq, hc, Bool.not_eq_true', decide_eq_false_iff_not] at hl
          exact hl
        rw [bind_pure_ok]
        cases hdf : mkDf cols ((ls.map takeBeforeSPat).map rowVals) with
        | error e => rfl
        | ok df =>
          have hcols : df.cols = cols := mkDfC_ok_cols hdf
          rw [bind_pure_ok]
          have hkey : mapCol freqCol (cellFmt 4 none) df = .error .keyError := by
            simp only [mapCol, hcols]
            rw [if_pos (List.count_eq_zero.mpr hfreq)]
          rw [hkey]
          rfl
    · simp only [to_df_acceleration, List.map_cons]
      cases hc : headerCols (takeBeforeSPat l) with
      | error e => rfl
      | ok cols =>
        have hfreq : freqCol ∉ cols := by
          simp only [lacksFreq, hc, Bool.not_eq_true', decide_eq_false_iff_not] at hl
          exact hl
        rw [bind_pure_ok]
        cases hdf : mkDf cols ((ls.map takeBeforeSPat).map rowVals) with
        | error e => rfl
        | ok df =>
          have hcols : df.cols = cols := mkDfC_ok_cols hdf
          rw [bind_pure_ok, hcols]
          cases hs : swap12 cols with
          | error e => rfl
          | ok cols2 =>
            have hfreq2 : freqCol ∉ cols2 := fun hm =>
              hfreq ((swap12_mem hs freqCol).mp hm)
            rw [bind_pure_ok]
            cases hrows : df.rows.mapM swap12 with
            | error e => rfl
            | ok rows2 =>
              rw [bind_pure_ok]
              cases hdf2 : mkDfC cols2 rows2 with
              | error e => rfl
              | ok df2 =>
                have hcols2 : df2.cols = cols2 := mkDfC_ok_cols hdf2
                rw [bind_pure_ok]
                have hkey : mapCol freqCol (cellFmt 4 none) df2 = .error .keyError := by
                  simp only [mapCol, hcols2]
                  rw [if_pos (List.count_eq_zero.mpr hfreq2)]
                rw [hkey]
                rfl

theorem summary_parser_failure_witness :
    (load_dfs_from_description__velocity_deformation exReport104 =
        .error .indexError ∧
      load_dfs_from_description__acceleration exReport104 =
        .error .indexError) ∧
    ((to_df_velocity_deformation [exBadHeader]).isOk = false ∧
      (to_df_acceleration [exBadHeader]).isOk = false) :=
  ⟨summary_parser_failure_conditions.1 exReport104 (by decide),
   summary_parser_failure_conditions.2 exBadHeader [] (by decide)⟩

/-- **C5.** Counterexample to the spec's line threshold: a 112-line report,
one line short of the claimed minimum `6 + 8*14 - 5 = 113`, on which the
velocity/deformation Summary-Block Parser nevertheless succeeds. -/
theorem summary_parser_line_threshold_counterexample :
    exReport112.length = 112 ∧
    (load_dfs_from_description__velocity_deformation exReport112).isOk = true := by
  exact ⟨by decide, by decide⟩

theorem range_get_join (c : List Cell) :
    (List.range c.length).map (fun i => ((c.get? i).map id).join) = c := by
  induction c with
  | nil => rfl
  | cons a cs ih =>
    rw [List.length_cons, List.range_succ_eq_map, List.map_cons, List.map_map]
    have htail : List.map ((fun i => ((((a :: cs).get? i).map id).join)) ∘ (· + 1))
        (List.range cs.length) = cs :=
      (List.map_congr_left fun i _ => rfl).trans ih
    rw [htail]
    rfl

theorem mkDfC_full {cols : List Str} {rows : List (List Cell)}
    (h : ∀ r ∈ rows, r.length = cols.length) :
    mkDfC cols rows = .ok ⟨cols, rows⟩ := by
  simp only [mkDfC]
  by_cases hne : rows = []
  · subst hne
    rw [if_neg (fun hc => hc.1 rfl)]
    rfl
  · have hw : ((rows.map List.length).foldr max 0) = cols.length := by
      apply foldr_max_const
      · simp [hne]
      · intro n hn
        obtain ⟨r, hr, rfl⟩ := List.mem_map.mp hn
        exact h r hr
    rw [hw, if_neg (fun hc => hc.2 rfl)]
    congr 1
    congr 1
    have h2 : ∀ r ∈ rows,
        (List.range cols.length).map (fun i => ((r.get? i).map id).join) = r :=
      fun r hr => by rw [← h r hr]; exact range_get_join r
    calc rows.map (fun r => (List.range cols.length).map
            fun i => ((r.get? i).map id).join)
        = rows.map (fun r => r) := List.map_congr_left h2
      _ = rows := by simp

theorem mkDf_full {cols : List Str} {rows : List (List Str)}
    (h : ∀ r ∈ rows, r.length = cols.length) :
    mkDf cols rows = .ok ⟨cols, rows.map (·.map some)⟩ := by
  unfold mkDf
  apply mkDfC_full
  intro r hr
  obtain ⟨r0, hr0, rfl⟩ := List.mem_map.mp hr
  rw [List.length_map]
  exact h r0 hr0

theorem mapRowAt_cons_zero {f : Cell → Except PyErr Cell} {c c' : Cell}
    (h : f c = .ok c') (rest : List Cell) :
    mapRowAt 0 f (c :: rest) = .ok (c' :: rest) := by
  simp only [mapRowAt, List.get?, h]
  rfl

theorem mapRowAt_cons_succ {f : Cell → Except PyErr Cell} {k : ℕ} {c : Cell}
    {rest rest' : List Cell} (h : mapRowAt k f rest = .ok rest') :
    mapRowAt (k + 1) f (c :: rest) = .ok (c :: rest') := by
  simp only [mapRowAt, List.get?_cons_succ] at h ⊢
  cases hg : rest.get? k with
  | none =>
    rw [hg] at h
    exact Except.noConfusion h
  | some c0 =>
    rw [hg] at h
    replace h : (f c0 >>= fun x =>
        (pure (rest.set k x) : Except PyErr (List Cell))) = .ok rest' := h
    show (f c0 >>= fun x =>
        (pure ((c :: rest).set (k + 1) x) : Except PyErr (List Cell))) =
      .ok (c :: rest')
    obtain ⟨b, hb, hp⟩ := except_bind_ok.mp h
    injection hp with hp
    rw [hb, bind_pure_ok, List.set_cons_succ, hp]
    rfl

theorem cellFmtP_none (ndig : ℕ) {s : Str} {v : PyNum}
    (h : pyFloat s = some v) :
    cellFmt ndig none (some s) = .ok (some (fmtFixedP ndig v)) := by
  simp only [cellFmt, cellFloat, h]
  rfl

theorem cellFmtP_round (ndig m : ℕ) {s : Str} {v : PyNum}
    (h : pyFloat s = some v) :
    cellFmt ndig (some m) (some s) = .ok (some (fmtFixedP ndig (pyRoundP m v))) := by
  simp only [cellFmt, cellFloat, h]
  rfl

theorem cellPhaseTrunc_fmt (v : PyNum) :
    ∃ c, cellPhaseTrunc (some (fmtFixedP 4 (pyRoundP 3 v))) = .ok c := by
  cases v with
  | num q => exact ⟨_, cellPhaseTrunc_round q⟩
  | nan => exact ⟨some ("nan".toList), by decide⟩

theorem mapCol_stage {name : Str} {f : Cell → Except PyErr Cell} {t : Table}
    {k : ℕ} {Sh Sh2 : List Cell → Prop}
    (hcount : t.cols.count name = 1) (hidx : t.cols.indexOf name = k)
    (hstep : ∀ r, Sh r → ∃ r2, mapRowAt k f r = .ok r2 ∧ Sh2 r2)
    (hrows : ∀ r ∈ t.rows, Sh r) :
    ∃ t2, mapCol name f t = .ok t2 ∧ t2.cols = t.cols ∧
      t2.rows.length = t.rows.length ∧ ∀ r2 ∈ t2.rows, Sh2 r2 := by
  obtain ⟨rows2, hmapM, hfa⟩ := mapM_ok_of_forall
    (f := mapRowAt k f) (Q := fun _ r2 => Sh2 r2) (l := t.rows)
    (fun r hr => (hstep r (hrows r hr)))
  refine ⟨⟨t.cols, rows2⟩, ?_, rfl, ?_, ?_⟩
  · simp only [mapCol, hcount, hidx]
    rw [if_neg (by decide), if_neg (by decide), hmapM]
    rfl
  · exact mapM_ok_length hmapM
  · intro r2 hr2
    obtain ⟨r, _, hq⟩ := forall₂_mem_right hfa r2 hr2
    exact hq

theorem list_length_eq_four {α : Type} {l : List α} (h : l.length = 4) :
    ∃ a b c d, l = [a, b, c, d] := by
  cases l with
  | nil => simp at h
  | cons a t =>
    rw [List.length_cons] at h
    obtain ⟨b, c, d, rfl⟩ := (List.length_eq_three (l := t)).mp (by omega)
    exact ⟨a, b, c, d, rfl⟩

theorem vd_step1 (r : List Cell)
    (h : ∃ s0 s1 s2, r = [some s0, some s1, some s2] ∧
      (pyFloat s0).isSome = true ∧ (pyFloat s1).isSome = true ∧
      (pyFloat s2).isSome = true) :
    ∃ r2, mapRowAt 0 (cellFmt 4 none) r = .ok r2 ∧
      ∃ s0 s1 s2, r2 = [some s0, some s1, some s2] ∧
        (pyFloat s1).isSome = true ∧ (pyFloat s2).isSome = true := by
  obtain ⟨s0, s1, s2, rfl, h0, h1, h2⟩ := h
  obtain ⟨v0, hv0⟩ := Option.isSome_iff_exists.mp h0
  exact ⟨_, mapRowAt_cons_zero (cellFmtP_none 4 hv0) _, _, _, _, rfl, h1, h2⟩

theorem vd_step2 (r : List Cell)
    (h : ∃ s0 s1 s2, r = [some s0, some s1, some s2] ∧
      (pyFloat s1).isSome = true ∧ (pyFloat s2).isSome = true) :
    ∃ r2, mapRowAt 0 (cellTrunc 5) r = .ok r2 ∧
      ∃ s0 s1 s2, r2 = [some s0, some s1, some s2] ∧
        (pyFloat s1).isSome = true ∧ (pyFloat s2).isSome = true := by
  obtain ⟨s0, s1, s2, rfl, h1, h2⟩ := h
  exact ⟨_, mapRowAt_cons_zero (cellTrunc_some 5 s0) _, _, _, _, rfl, h1, h2⟩

theorem vd_step3 (r : List Cell)
    (h : ∃ s0 s1 s2, r = [some s0, some s1, some s2] ∧
      (pyFloat s1).isSome = true ∧ (pyFloat s2).isSome = true) :
    ∃ r2, mapRowAt 1 (cellFmt 6 (some 6)) r = .ok r2 ∧
      ∃ s0 s1 s2, r2 = [some s0, some s1, some s2] ∧
        (pyFloat s2).isSome = true := by
  obtain ⟨s0, s1, s2, rfl, h1, h2⟩ := h
  obtain ⟨v1, hv1⟩ := Option.isSome_iff_exists.mp h1
  exact ⟨_, mapRowAt_cons_succ (mapRowAt_cons_zero (cellFmtP_round 6 6 hv1) _),
    _, _, _, rfl, h2⟩

theorem vd_step4 (r : List Cell)
    (h : ∃ s0 s1 s2, r = [some s0, some s1, some s2] ∧
      (pyFloat s2).isSome = true) :
    ∃ r2, mapRowAt 1 (cellTrunc 8) r = .ok r2 ∧
      ∃ s0 s1 s2, r2 = [some s0, some s1, some s2] ∧
        (pyFloat s2).isSome = true := by
  obtain ⟨s0, s1, s2, rfl, h2⟩ := h
  exact ⟨_, mapRowAt_cons_succ (mapRowAt_cons_zero (cellTrunc_some 8 s1) _),
    _, _, _, rfl, h2⟩

theorem vd_step5 (r : List Cell)
    (h : ∃ s0 s1 s2, r = [some s0, some s1, some s2] ∧
      (pyFloat s2).isSome = true) :
    ∃ r2, mapRowAt 2 (cellFmt 4 (some 3)) r = .ok r2 ∧
      ∃ s0 s1 v, r2 = [some s0, some s1, some (fmtFixedP 4 (pyRoundP 3 v))] := by
  obtain ⟨s0, s1, s2, rfl, h2⟩ := h
  obtain ⟨v2, hv2⟩ := Option.isSome_iff_exists.mp h2
  exact ⟨_, mapRowAt_cons_succ (mapRowAt_cons_succ
    (mapRowAt_cons_zero (cellFmtP_round 4 3 hv2) _)), _, _, _, rfl⟩

theorem vd_step6 (r : List Cell)
    (h : ∃ s0 s1 v, r = [some s0, some s1, some (fmtFixedP 4 (pyRoundP 3 v))]) :
    ∃ r2, mapRowAt 2 cellPhaseTrunc r = .ok r2 ∧ True := by
  obtain ⟨s0, s1, v, rfl⟩ := h
  obtain ⟨c, hc⟩ := cellPhaseTrunc_fmt v
  exact ⟨_, mapRowAt_cons_succ (mapRowAt_cons_succ (mapRowAt_cons_zero hc _)),
    trivial⟩

theorem block_vd {b : List Str} (hwf : wfBlockVD b = true) :
    ∃ db, dStep b = .ok db ∧
      ∃ t, to_df_velocity_deformation db = .ok t ∧
        t.cols = vdSchema ∧ t.rows.length = 7 := by
  cases b with
  | nil => exact absurd hwf (by decide)
  | cons h t =>
  simp only [wfBlockVD, Bool.and_eq_true, decide_eq_true_eq, List.length_cons,
    List.drop_succ_cons] at hwf
  obtain ⟨⟨hlen, hhdr⟩, hall⟩ := hwf
  have hlent : t.length = 8 := by omega
  cases hc : headerCols (takeBeforeSPat ('\t' :: h)) with
  | error e =>
    rw [hc] at hhdr
    exact Bool.noConfusion (show false = true from hhdr)
  | ok cs =>
  rw [hc] at hhdr
  replace hhdr : decide (cs = vdSchema) = true := hhdr
  have hcs := of_decide_eq_true hhdr
  subst hcs
  refine ⟨('\t' :: h) :: t.drop 1, rfl, ?_⟩
  simp only [to_df_velocity_deformation, List.map_cons]
  rw [hc, bind_pure_ok]
  have hwfrow : ∀ l ∈ t.drop 1, wfRow 3 l = true := List.all_eq_true.mp hall
  have hrows3 : ∀ r ∈ (List.map takeBeforeSPat (t.drop 1)).map rowVals,
      r.length = vdSchema.length := by
    intro r hr
    obtain ⟨l, hl, rfl⟩ := List.mem_map.mp hr
    obtain ⟨l0, hl0, rfl⟩ := List.mem_map.mp hl
    have hw := hwfrow l0 hl0
    simp only [wfRow, Bool.and_eq_true, decide_eq_true_eq] at hw
    rw [show vdSchema.length = 3 from rfl]
    exact hw.1
  rw [mkDf_full hrows3, bind_pure_ok]
  have hSh0 : ∀ r ∈ (((List.map takeBeforeSPat (t.drop 1)).map rowVals).map
      (·.map some)), ∃ s0 s1 s2, r = [some s0, some s1, some s2] ∧
      (pyFloat s0).isSome = true ∧ (pyFloat s1).isSome = true ∧
      (pyFloat s2).isSome = true := by
    intro r hr
    obtain ⟨row, hrow, rfl⟩ := List.mem_map.mp hr
    obtain ⟨l, hl, rfl⟩ := List.mem_map.mp hrow
    obtain ⟨l0, hl0, rfl⟩ := List.mem_map.mp hl
    have hw := hwfrow l0 hl0
    simp only [wfRow, Bool.and_eq_true, decide_eq_true_eq] at hw
    obtain ⟨s0, s1, s2, hrow3⟩ := List.length_eq_three.mp hw.1
    rw [hrow3]
    have hpar := List.all_eq_true.mp hw.2
    rw [hrow3] at hpar
    refine ⟨s0, s1, s2, rfl, ?_, ?_, ?_⟩
    · exact hpar s0 (by simp)
    · exact hpar s1 (by simp)
    · exact hpar s2 (by simp)
  obtain ⟨t1, e1, c1, l1, sh1⟩ :=
    @mapCol_stage freqCol (cellFmt 4 none)
      ⟨vdSchema, ((List.map takeBeforeSPat (t.drop 1)).map rowVals).map (·.map some)⟩
      0 _ _ (show List.count freqCol vdSchema = 1 by decide)
      (show List.indexOf freqCol vdSchema = 0 by decide) vd_step1 hSh0
  have c1v : t1.cols = vdSchema := c1
  obtain ⟨t2, e2, c2, l2, sh2⟩ :=
    @mapCol_stage freqCol (cellTrunc 5) t1 0 _ _
      (by rw [c1v]; decide) (by rw [c1v]; decide) vd_step2 sh1
  have c2v : t2.cols = vdSchema := c2.trans c1v
  obtain ⟨t3, e3, c3, l3, sh3⟩ :=
    @mapCol_stage ampCol (cellFmt 6 (some 6)) t2 1 _ _
      (by rw [c2v]; decide) (by rw [c2v]; decide) vd_step3 sh2
  have c3v : t3.cols = vdSchema := c3.trans c2v
  obtain ⟨t4, e4, c4, l4, sh4⟩ :=
    @mapCol_stage ampCol (cellTrunc 8) t3 1 _ _
      (by rw [c3v]; decide) (by rw [c3v]; decide) vd_step4 sh3
  have c4v : t4.cols = vdSchema := c4.trans c3v
  obtain ⟨t5, e5, c5, l5, sh5⟩ :=
    @mapCol_stage phaseCol (cellFmt 4 (some 3)) t4 2 _ _
      (by rw [c4v]; decide) (by rw [c4v]; decide) vd_step5 sh4
  have c5v : t5.cols = vdSchema := c5.trans c4v
  obtain ⟨t6, e6, c6, l6, _⟩ :=
    @mapCol_stage phaseCol cellPhaseTrunc t5 2 _ _
      (by rw [c5v]; decide) (by rw [c5v]; decide) vd_step6 sh5
  refine ⟨t6, ?_, ?_, ?_⟩
  · rw [e1, bind_pure_ok, e2, bind_pure_ok, e3, bind_pure_ok, e4, bind_pure_ok,
      e5, bind_pure_ok, e6]
  · exact c6.trans c5v
  · rw [l6, l5, l4, l3, l2, l1]
    show (((List.map takeBeforeSPat (t.drop 1)).map rowVals).map
      (·.map some)).length = 7
    simp only [List.length_map, List.length_drop, hlent]

theorem table_cols_mk (c : List Str) (r : List (List Cell)) :
    (Table.mk c r).cols = c := rfl

theorem table_rows_mk (c : List Str) (r : List (List Cell)) :
    (Table.mk c r).rows = r := rfl

theorem swap12_acc_cols (rows : List (List Cell)) :
    swap12 (Table.mk accSchema rows).cols = .ok accSchemaOut := rfl

theorem acc_step1 (r : List Cell)
    (h : ∃ s0 s1 s2 s3, r = [some s0, some s1, some s2, some s3] ∧
      (pyFloat s0).isSome = true ∧ (pyFloat s1).isSome = true ∧
      (pyFloat s2).isSome = true ∧ (pyFloat s3).isSome = true) :
    ∃ r2, mapRowAt 0 (cellFmt 4 none) r = .ok r2 ∧
      ∃ s0 s1 s2 s3, r2 = [some s0, some s1, some s2, some s3] ∧
        (pyFloat s1).isSome = true ∧ (pyFloat s2).isSome = true ∧
        (pyFloat s3).isSome = true := by
  obtain ⟨s0, s1, s2, s3, rfl, h0, h1, h2, h3⟩ := h
  obtain ⟨v0, hv0⟩ := Option.isSome_iff_exists.mp h0
  exact ⟨_, mapRowAt_cons_zero (cellFmtP_none 4 hv0) _,
    _, _, _, _, rfl, h1, h2, h3⟩

theorem acc_step2 (r : List Cell)
    (h : ∃ s0 s1 s2 s3, r = [some s0, some s1, some s2, some s3] ∧
      (pyFloat s1).isSome = true ∧ (pyFloat s2).isSome = true ∧
      (pyFloat s3).isSome = true) :
    ∃ r2, mapRowAt 0 (cellTrunc 5) r = .ok r2 ∧
      ∃ s0 s1 s2 s3, r2 = [some s0, some s1, some s2, some s3] ∧
        (pyFloat s1).isSome = true ∧ (pyFloat s2).isSome = true ∧
        (pyFloat s3).isSome = true := by
  obtain ⟨s0, s1, s2, s3, rfl, h1, h2, h3⟩ := h
  exact ⟨_, mapRowAt_cons_zero (cellTrunc_some 5 s0) _,
    _, _, _, _, rfl, h1, h2, h3⟩

theorem acc_step3 (r : List Cell)
    (h : ∃ s0 s1 s2 s3, r = [some s0, some s1, some s2, some s3] ∧
      (pyFloat s1).isSome = true ∧ (pyFloat s2).isSome = true ∧
      (pyFloat s3).isSome = true) :
    ∃ r2, mapRowAt 1 (cellFmt 4 (some 4)) r = .ok r2 ∧
      ∃ s0 s1 s2 s3, r2 = [some s0, some s1, some s2, some s3] ∧
        (pyFloat s2).isSome = true ∧ (pyFloat s3).isSome = true := by
  obtain ⟨s0, s1, s2, s3, rfl, h1, h2, h3⟩ := h
  obtain ⟨v1, hv1⟩ := Option.isSome_iff_exists.mp h1
  exact ⟨_, mapRowAt_cons_succ (mapRowAt_cons_zero (cellFmtP_round 4 4 hv1) _),
    _, _, _, _, rfl, h2, h3⟩

theorem acc_step4 (r : List Cell)
    (h : ∃ s0 s1 s2 s3, r = [some s0, some s1, some s2, some s3] ∧
      (pyFloat s2).isSome = true ∧ (pyFloat s3).isSome = true) :
    ∃ r2, mapRowAt 1 (cellTrunc 6) r = .ok r2 ∧
      ∃ s0 s1 s2 s3, r2 = [some s0, some s1, some s2, some s3] ∧
        (pyFloat s2).isSome = true ∧ (pyFloat s3).isSome = true := by
  obtain ⟨s0, s1, s2, s3, rfl, h2, h3⟩ := h
  exact ⟨_, mapRowAt_cons_succ (mapRowAt_cons_zero (cellTrunc_some 6 s1) _),
    _, _, _, _, rfl, h2, h3⟩

theorem acc_step5 (r : List Cell)
    (h : ∃ s0 s1 s2 s3, r = [some s0, some s1, some s2, some s3] ∧
      (pyFloat s2).isSome = true ∧ (pyFloat s3).isSome = true) :
    ∃ r2, mapRowAt 2 (cellFmt 4 (some 4)) r = .ok r2 ∧
      ∃ s0 s1 s2 s3, r2 = [some s0, some s1, some s2, some s3] ∧
        (pyFloat s3).isSome = true := by
  obtain ⟨s0, s1, s2, s3, rfl, h2, h3⟩ := h
  obtain ⟨v2, hv2⟩ := Option.isSome_iff_exists.mp h2
  exact ⟨_, mapRowAt_cons_succ (mapRowAt_cons_succ
    (mapRowAt_cons_zero (cellFmtP_round 4 4 hv2) _)), _, _, _, _, rfl, h3⟩

theorem acc_step6 (r : List Cell)
    (h : ∃ s0 s1 s2 s3, r = [some s0, some s1, some s2, some s3] ∧
      (pyFloat s3).isSome = true) :
    ∃ r2, mapRowAt 2 (cellTrunc 6) r = .ok r2 ∧
      ∃ s0 s1 s2 s3, r2 = [some s0, some s1, some s2, some s3] ∧
        (pyFloat s3).isSome = true := by
  obtain ⟨s0, s1, s2, s3, rfl, h3⟩ := h
  exact ⟨_, mapRowAt_cons_succ (mapRowAt_cons_succ
    (mapRowAt_cons_zero (cellTrunc_some 6 s2) _)), _, _, _, _, rfl, h3⟩

theorem acc_step7 (r : List Cell)
    (h : ∃ s0 s1 s2 s3, r = [some s0, some s1, some s2, some s3] ∧
      (pyFloat s3).isSome = true) :
    ∃ r2, mapRowAt 3 (cellFmt 4 (some 3)) r = .ok r2 ∧
      ∃ s0 s1 s2 v, r2 = [some s0, some s1, some s2,
        some (fmtFixedP 4 (pyRoundP 3 v))] := by
  obtain ⟨s0, s1, s2, s3, rfl, h3⟩ := h
  obtain ⟨v3, hv3⟩ := Option.isSome_iff_exists.mp h3
  exact ⟨_, mapRowAt_cons_succ (mapRowAt_cons_succ (mapRowAt_cons_succ
    (mapRowAt_cons_zero (cellFmtP_round 4 3 hv3) _))), _, _, _, _, rfl⟩

theorem acc_step8 (r : List Cell)
    (h : ∃ s0 s1 s2 v, r = [some s0, some s1, some s2,
      some (fmtFixedP 4 (pyRoundP 3 v))]) :
    ∃ r2, mapRowAt 3 cellPhaseTrunc r = .ok r2 ∧ True := by
  obtain ⟨s0, s1, s2, v, rfl⟩ := h
  obtain ⟨c, hc⟩ := cellPhaseTrunc_fmt v
  exact ⟨_, mapRowAt_cons_succ (mapRowAt_cons_succ (mapRowAt_cons_succ
    (mapRowAt_cons_zero hc _))), trivial⟩

theorem block_acc {b : List Str} (hwf : wfBlockAcc b = true) :
    ∃ db, dStep b = .ok db ∧
      ∃ t, to_df_acceleration db = .ok t ∧
        t.cols = accSchemaOut ∧ t.rows.length = 7 := by
  cases b with
  | nil => exact absurd hwf (by decide)
  | cons h t =>
  simp only [wfBlockAcc, Bool.and_eq_true, decide_eq_true_eq, List.length_cons,
    List.drop_succ_cons] at hwf
  obtain ⟨⟨hlen, hhdr⟩, hall⟩ := hwf
  have hlent : t.length = 8 := by omega
  cases hc : headerCols (takeBeforeSPat ('\t' :: h)) with
  | error e =>
    rw [hc] at hhdr
    exact Bool.noConfusion (show false = true from hhdr)
  | ok cs =>
  rw [hc] at hhdr
  replace hhdr : decide (cs = accSchema) = true := hhdr
  have hcs := of_decide_eq_true hhdr
  subst hcs
  refine ⟨('\t' :: h) :: t.drop 1, rfl, ?_⟩
  simp only [to_df_acceleration, List.map_cons]
  rw [hc, bind_pure_ok]
  have hwfrow : ∀ l ∈ t.drop 1, wfRow 4 l = true := List.all_eq_true.mp hall
  have hrows4 : ∀ r ∈ (List.map takeBeforeSPat (t.drop 1)).map rowVals,
      r.length = accSchema.length := by
    intro r hr
    obtain ⟨l, hl, rfl⟩ := List.mem_map.mp hr
    obtain ⟨l0, hl0, rfl⟩ := List.mem_map.mp hl
    have hw := hwfrow l0 hl0
    simp only [wfRow, Bool.and_eq_true, decide_eq_true_eq] at hw
    rw [show accSchema.length = 4 from rfl]
    exact hw.1
  rw [mkDf_full hrows4, bind_pure_ok, swap12_acc_cols, bind_pure_ok,
    table_rows_mk]
  have hSw : ∀ r ∈ ((List.map takeBeforeSPat (t.drop 1)).map rowVals).map
      (·.map some), ∃ r2, swap12 r = .ok r2 ∧
      ∃ s0 s1 s2 s3, r2 = [some s0, some s1, some s2, some s3] ∧
      (pyFloat s0).isSome = true ∧ (pyFloat s1).isSome = true ∧
      (pyFloat s2).isSome = true ∧ (pyFloat s3).isSome = true := by
    intro r hr
    obtain ⟨row, hrow, rfl⟩ := List.mem_map.mp hr
    obtain ⟨l, hl, rfl⟩ := List.mem_map.mp hrow
    obtain ⟨l0, hl0, rfl⟩ := List.mem_map.mp hl
    have hw := hwfrow l0 hl0
    simp only [wfRow, Bool.and_eq_true, decide_eq_true_eq] at hw
    obtain ⟨s0, s1, s2, s3, hrow4⟩ := list_length_eq_four hw.1
    rw [hrow4]
    have hpar := List.all_eq_true.mp hw.2
    rw [hrow4] at hpar
    refine ⟨[some s0, some s2, some s1, some s3], rfl, s0, s2, s1, s3, rfl,
      ?_, ?_, ?_, ?_⟩
    · exact hpar s0 (by simp)
    · exact hpar s2 (by simp)
    · exact hpar s1 (by simp)
    · exact hpar s3 (by simp)
  obtain ⟨rows2, hm, hfa⟩ := mapM_ok_of_forall hSw
  rw [hm, bind_pure_ok]
  have hSh0 : ∀ r ∈ rows2, ∃ s0 s1 s2 s3,
      r = [some s0, some s1, some s2, some s3] ∧
      (pyFloat s0).isSome = true ∧ (pyFloat s1).isSome = true ∧
      (pyFloat s2).isSome = true ∧ (pyFloat s3).isSome = true := by
    intro r2 hr2
    obtain ⟨r, _, hq⟩ := forall₂_mem_right hfa r2 hr2
    exact hq
  have hlen2 : ∀ r ∈ rows2, r.length = accSchemaOut.length := by
    intro r2 hr2
    obtain ⟨s0, s1, s2, s3, rfl, _⟩ := hSh0 r2 hr2
    rfl
  rw [mkDfC_full hlen2, bind_pure_ok]
  have hSh0T : ∀ r ∈ (Table.mk accSchemaOut rows2).rows, ∃ s0 s1 s2 s3,
      r = [some s0, some s1, some s2, some s3] ∧
      (pyFloat s0).isSome = true ∧ (pyFloat s1).isSome = true ∧
      (pyFloat s2).isSome = true ∧ (pyFloat s3).isSome = true := hSh0
  obtain ⟨t1, e1, c1, l1, sh1⟩ :=
    @mapCol_stage freqCol (cellFmt 4 none) ⟨accSchemaOut, rows2⟩ 0 _ _
      (show List.count freqCol accSchemaOut = 1 by decide)
      (show List.indexOf freqCol accSchemaOut = 0 by decide) acc_step1 hSh0T
  have c1v : t1.cols = accSchemaOut := c1
  obtain ⟨t2, e2, c2, l2, sh2⟩ :=
    @mapCol_stage freqCol (cellTrunc 5) t1 0 _ _
      (by rw [c1v]; decide) (by rw [c1v]; decide) acc_step2 sh1
  have c2v : t2.cols = accSchemaOut := c2.trans c1v
  obtain ⟨t3, e3, c3, l3, sh3⟩ :=
    @mapCol_stage ampCol (cellFmt 4 (some 4)) t2 1 _ _
      (by rw [c2v]; decide) (by rw [c2v]; decide) acc_step3 sh2
  have c3v : t3.cols = accSchemaOut := c3.trans c2v
  obtain ⟨t4, e4, c4, l4, sh4⟩ :=
    @mapCol_stage ampCol (cellTrunc 6) t3 1 _ _
      (by rw [c3v]; decide) (by rw [c3v]; decide) acc_step4 sh3
  have c4v : t4.cols = accSchemaOut := c4.trans c3v
  obtain ⟨t5, e5, c5, l5, sh5⟩ :=
    @mapCol_stage ampGCol (cellFmt 4 (some 4)) t4 2 _ _
      (by rw [c4v]; decide) (by rw [c4v]; decide) acc_step5 sh4
  have c5v : t5.cols = accSchemaOut := c5.trans c4v
  obtain ⟨t6, e6, c6, l6, sh6⟩ :=
    @mapCol_stage ampGCol (cellTrunc 6) t5 2 _ _
      (by rw [c5v]; decide) (by rw [c5v]; decide) acc_step6 sh5
  have c6v : t6.cols = accSchemaOut := c6.trans c5v
  obtain ⟨t7, e7, c7, l7, sh7⟩ :=
    @mapCol_stage phaseCol (cellFmt 4 (some 3)) t6 3 _ _
      (by rw [c6v]; decide) (by rw [c6v]; decide) acc_step7 sh6
  have c7v : t7.cols = accSchemaOut := c7.trans c6v
  obtain ⟨t8, e8, c8, l8, _⟩ :=
    @mapCol_stage phaseCol cellPhaseTrunc t7 3 _ _
      (by rw [c7v]; decide) (by rw [c7v]; decide) acc_step8 sh7
  refine ⟨t8, ?_, ?_, ?_⟩
  · rw [e1, bind_pure_ok, e2, bind_pure_ok, e3, bind_pure_ok, e4, bind_pure_ok,
      e5, bind_pure_ok, e6, bind_pure_ok, e7, bind_pure_ok, e8]
  · exact c8.trans c7v
  · rw [l8, l7, l6, l5, l4, l3, l2, l1, table_rows_mk, mapM_ok_length hm]
    simp only [List.length_map, List.length_drop, hlent]

/-- **C1.** On a description report whose eight fixed block slices (after
line-stripping and dropping the 6-line preamble, at offsets 0, 14, ..., 98,
9 lines wide) are all well-formed, the Summary-Block Parser succeeds and
produces exactly 8 tables, each with exactly 7 statistic rows and columns
matching the quantity schema: `[Frequency, Amplitude, Phase_Angle]` for
velocity/deformation (3 columns) and `[Frequency, Amplitude, Amplitude_g,
Phase_Angle]` for acceleration (4 columns, after the middle-column swap). -/
theorem summary_block_parser_shape :
    (∀ content : List Str,
      (∀ k ∈ blockStarts,
        wfBlockVD (sliceAt ((content.map pstrip).drop 6) k) = true) →
      ∃ ts, load_dfs_from_description__velocity_deformation content = .ok ts ∧
        ts.length = 8 ∧ ∀ t ∈ ts, t.cols = vdSchema ∧ t.rows.length = 7) ∧
    (∀ content : List Str,
      (∀ k ∈ blockStarts,
        wfBlockAcc (sliceAt ((content.map pstrip).drop 6) k) = true) →
      ∃ ts, load_dfs_from_description__acceleration content = .ok ts ∧
        ts.length = 8 ∧ ∀ t ∈ ts, t.cols = accSchemaOut ∧ t.rows.length = 7) := by
  constructor
  · intro content hwf
    obtain ⟨dblocks, hm1, hfa1⟩ :=
      @mapM_ok_of_forall PyErr ℕ (List Str)
        (fun k => dStep (sliceAt ((content.map pstrip).drop 6) k))
        (fun _ db => ∃ t, to_df_velocity_deformation db = .ok t ∧
          t.cols = vdSchema ∧ t.rows.length = 7)
        blockStarts
        (fun k hk => block_vd (hwf k hk))
    obtain ⟨ts, hm2, hfa2⟩ :=
      @mapM_ok_of_forall PyErr (List Str) Table
        to_df_velocity_deformation
        (fun _ t => t.cols = vdSchema ∧ t.rows.length = 7)
        dblocks
        (fun db hdb => by
          obtain ⟨k, hk, t, ht, hct, hrt⟩ := forall₂_mem_right hfa1 db hdb
          exact ⟨t, ht, hct, hrt⟩)
    refine ⟨ts, ?_, ?_, ?_⟩
    · simp only [load_dfs_from_description__velocity_deformation,
        loadDescription]
      rw [hm1, bind_pure_ok, hm2]
    · rw [mapM_ok_length hm2, mapM_ok_length hm1]
      rfl
    · intro tt htt
      obtain ⟨db, _, hq⟩ := forall₂_mem_right hfa2 tt htt
      exact hq
  · intro content hwf
    obtain ⟨dblocks, hm1, hfa1⟩ :=
      @mapM_ok_of_forall PyErr ℕ (List Str)
        (fun k => dStep (sliceAt ((content.map pstrip).drop 6) k))
        (fun _ db => ∃ t, to_df_acceleration db = .ok t ∧
          t.cols = accSchemaOut ∧ t.rows.length = 7)
        blockStarts
        (fun k hk => block_acc (hwf k hk))
    obtain ⟨ts, hm2, hfa2⟩ :=
      @mapM_ok_of_forall PyErr (List Str) Table
        to_df_acceleration
        (fun _ t => t.cols = accSchemaOut ∧ t.rows.length = 7)
        dblocks
        (fun db hdb => by
          obtain ⟨k, hk, t, ht, hct, hrt⟩ := forall₂_mem_right hfa1 db hdb
          exact ⟨t, ht, hct, hrt⟩)
    refine ⟨ts, ?_, ?_, ?_⟩
    · simp only [load_dfs_from_description__acceleration, loadDescription]
      rw [hm1, bind_pure_ok, hm2]
    · rw [mapM_ok_length hm2, mapM_ok_length hm1]
      rfl
    · intro tt htt
      obtain ⟨db, _, hq⟩ := forall₂_mem_right hfa2 tt htt
      exact hq

theorem summary_block_parser_shape_witness :
    (∃ ts, load_dfs_from_description__velocity_deformation exReportVD = .ok ts ∧
      ts.length = 8 ∧ ∀ t ∈ ts, t.cols = vdSchema ∧ t.rows.length = 7) ∧
    (∃ ts, load_dfs_from_description__acceleration exReportAcc = .ok ts ∧
      ts.length = 8 ∧ ∀ t ∈ ts, t.cols = accSchemaOut ∧ t.rows.length = 7) :=
  ⟨summary_block_parser_shape.1 exReportVD (by decide),
   summary_block_parser_shape.2 exReportAcc (by decide)⟩

end HarmonicResponse
